import Mathlib

/-!
Verification development for the SEC EDGAR Form 8-K downloader
(src/SEC_download.py).  Python functions are embedded shallowly as Lean
definitions: strings are Lean strings (lists of characters), machine
integers are Nat, fallible code returns Option, network and filesystem
effects are passed explicitly (a response oracle per attempt, the
destination file state, a trace of performed requests and sleeps).
-/

/-! ## Python string primitives

Models of the CPython string operations used by the source.  str.strip /
str.split with no argument use the ASCII whitespace characters (space,
tab, newline, carriage return, vertical tab, form feed); Unicode-only
space characters are outside the model.  splitlines is modelled as
splitting on the newline character. -/

/-- ASCII whitespace as recognised by str.strip and str.split. -/
def pyIsSpace (c : Char) : Bool :=
  c == ' ' || c == '\t' || c == '\n' || c == '\r' ||
    c == Char.ofNat 11 || c == Char.ofNat 12

/-- Model of str.strip with no argument: drop leading and trailing whitespace. -/
def pyStrip (l : List Char) : List Char :=
  ((l.dropWhile pyIsSpace).reverse.dropWhile pyIsSpace).reverse

/-- Model of str.lower restricted to ASCII letters (sufficient for the
header labels compared by the source). -/
def pyLower (l : List Char) : List Char := l.map Char.toLower

/-- Model of str.upper restricted to ASCII letters. -/
def pyUpper (l : List Char) : List Char := l.map Char.toUpper

/-! ## Data model (src/SEC_download.py, dataclass FilingRef) -/

/-- dataclass FilingRef: one filing reference. -/
structure FilingRef where
  cik10 : String
  accession_no : String
  filing_date : String
  form : String
  primary_document : String
deriving DecidableEq, Repr

/-! ## normalize_cik (src/SEC_download.py lines 42-49)

re.sub(r"\D", "", cik) is modelled as keeping the ASCII digit characters.
The Python function raises ValueError when no digit remains; the embedding
returns none in that case. -/

/-- The digit characters of the input, in order (re.sub stripping non-digits). -/
def cikDigits (cik : String) : List Char := cik.toList.filter (fun c => c.isDigit)

/-- Keep the trailing 10 digits when the input is too long (lines 46-48). -/
def cikTail10 (d : List Char) : List Char :=
  if d.length > 10 then d.drop (d.length - 10) else d

/-- zfill(10) then wrap: zero-pad on the left to width 10. -/
def normalize_cik (cik : String) : Option String :=
  if cikDigits cik = [] then none
  else some (String.mk (List.replicate (10 - (cikTail10 (cikDigits cik)).length) '0'
      ++ cikTail10 (cikDigits cik)))

/-! ## safe_filename (src/SEC_download.py lines 61-68)

name.split("/")[-1] is the suffix of the string after its last slash,
computed here by taking the longest slash-free suffix. -/

def lastSlashComp (l : List Char) : List Char :=
  ((l.reverse.takeWhile (fun c => c != '/')).reverse)

/-- The stripped last path component after backslash normalization
(lines 63-67 of the source, up to the final whitespace truncation). -/
def sfCore (name : String) : List Char :=
  pyStrip (lastSlashComp (name.toList.map (fun c => if c = '\\' then '/' else c)))

/-- safe_filename: last path component, truncated at the first whitespace;
empty when nothing but whitespace remains. -/
def safe_filename (name : String) : String :=
  if sfCore name = [] then ""
  else String.mk ((sfCore name).takeWhile (fun c => !pyIsSpace c))

/-! ## The shard filter inside run_download (src/SEC_download.py lines 524-539)

The Python code keeps a target t iff
int(hashlib.sha1(t.accession_no).hexdigest(), 16) % k == n - 1.
The SHA-1 digest-as-integer map is abstracted as an arbitrary function
h : String -> Nat; every theorem below holds for every such h, hence in
particular for SHA-1. -/

def shardFilter (h : String → Nat) (k n : Nat) (ts : List FilingRef) : List FilingRef :=
  ts.filter (fun t => h t.accession_no % k == n - 1)

/-! ## _EdgarIndexParser (src/SEC_download.py lines 887-963)

The row-level logic of the filing-index parser.  The HTML tokenization of
HTMLParser is abstracted away: a page is a sequence of table rows, each
given as (row_has_th, cells), exactly the state the source accumulates
before its end-of-tr handler runs.

NOTE: the end-of-tr data-row block of the source (lines 940-956) is not
valid Python: the body of "if doc_idx is None or type_idx is None:" on
line 942 is only a comment (the next statement is dedented back to the
same level), and the "else:" on line 947 is indented under nothing.
Importing the module raises IndentationError, so this block can never
run.  The definitions below follow the evident intent, which the comments
of the source spell out: dynamic column lookup when a header row supplied
Document/Type positions, and the fixed 3-column guess (document = cell 0,
type = cell 2) only as a fallback. -/

def pyStripS (s : String) : String := String.mk (pyStrip s.toList)

def pyLowerS (s : String) : String := String.mk (pyLower s.toList)

structure IdxState where
  doc_col_idx : Option Nat
  type_col_idx : Option Nat
  rows : List (String × String)
deriving Repr, DecidableEq

/-- Append (doc, typ) unless the document cell is empty or reads as the
column label (line 955 of the source). -/
def edgarIndexEmit (st : IdxState) (doc typ : String) : IdxState :=
  if doc ≠ "" ∧ pyLowerS doc ≠ "document" then
    { st with rows := st.rows ++ [(doc, typ)] }
  else st

/-- End-of-tr handler for one accumulated row (intended logic of lines
923-956). -/
def edgarIndexEndRow (st : IdxState) (rowHasTh : Bool) (cells : List String) : IdxState :=
  if rowHasTh = true ∧ cells ≠ [] then
    -- header row: detect column indices for Document and Type
    let lower := cells.map (fun c => pyLowerS (pyStripS c))
    { st with
      doc_col_idx := if "document" ∈ lower then some (lower.indexOf "document")
        else st.doc_col_idx,
      type_col_idx := if "type" ∈ lower then some (lower.indexOf "type")
        else st.type_col_idx }
  else if cells = [] then st
  else
    match st.doc_col_idx, st.type_col_idx with
    | some di, some ti =>
      if di ≥ cells.length ∨ ti ≥ cells.length then st
      else edgarIndexEmit st (pyStripS (cells.getD di "")) (pyStripS (cells.getD ti ""))
    | _, _ =>
      -- fallback to the old fixed 3-column assumption
      if cells.length ≥ 3 then
        edgarIndexEmit st (pyStripS (cells.getD 0 "")) (pyStripS (cells.getD 2 ""))
      else st

/-- Feed a whole page of rows through the parser. -/
def edgarIndexFeed (rowsIn : List (Bool × List String)) : IdxState :=
  rowsIn.foldl (fun st rc => edgarIndexEndRow st rc.1 rc.2) ⟨none, none, []⟩

/-! ## Resilient transport (src/SEC_download.py lines 121-244)

Effects are made explicit: the network is an oracle mapping the attempt
number to an outcome (requests.exceptions.RequestException is netError;
otherwise a status code and a response body, bodies as byte lists);
random.random() is an oracle j from attempt number to the drawn jitter
(a rational in [0,1)); time.sleep durations are collected in a trace.
The rate limiter does not change any of the observed values and is
dropped from the model. -/

inductive HttpOutcome where
  | netError
  | status (code : Nat) (body : List Nat)
deriving Repr, DecidableEq

/-- The transient statuses retried by every transport operation
(lines 139, 165, 195, 226). -/
def retryStatuses : List Nat := [403, 429, 500, 502, 503, 504]

/-- An outcome the loop retries: a network error or a transient status. -/
def retryable : HttpOutcome → Bool
  | .netError => true
  | .status c _ => retryStatuses.contains c

inductive FetchResult where
  | ok (body : List Nat)
  | httpError (code : Nat)
  | transportFail
deriving Repr, DecidableEq

/-- The shared retry loop of sec_get_json / sec_get_text / sec_get_bytes:
per attempt, a retryable outcome sleeps backoff + jitter and doubles the
backoff (capped at 60); resp.raise_for_status raises for 4xx/5xx; any
other status returns the body.  Returns the result and the sleep trace. -/
def secGetLoop (env : Nat → HttpOutcome) (j : Nat → ℚ) :
    Nat → Nat → ℚ → FetchResult × List ℚ
  | _, 0, _ => (.transportFail, [])
  | attempt, fuel + 1, backoff =>
    match env attempt with
    | .netError =>
      let r := secGetLoop env j (attempt + 1) fuel (min (backoff * 2) 60)
      (r.1, (backoff + j attempt) :: r.2)
    | .status c body =>
      if retryStatuses.contains c then
        let r := secGetLoop env j (attempt + 1) fuel (min (backoff * 2) 60)
        (r.1, (backoff + j attempt) :: r.2)
      else if 400 ≤ c ∧ c < 600 then (.httpError c, [])
      else (.ok body, [])

def sec_get_json (env : Nat → HttpOutcome) (j : Nat → ℚ) (max_retries : Nat) :
    FetchResult × List ℚ :=
  secGetLoop env j 0 max_retries 1

/-- sec_get_text (lines 148-172): identical control flow to sec_get_json. -/
def sec_get_text (env : Nat → HttpOutcome) (j : Nat → ℚ) (max_retries : Nat) :
    FetchResult × List ℚ :=
  secGetLoop env j 0 max_retries 1

/-- sec_get_bytes (lines 175-201): identical control flow to sec_get_json. -/
def sec_get_bytes (env : Nat → HttpOutcome) (j : Nat → ℚ) (max_retries : Nat) :
    FetchResult × List ℚ :=
  secGetLoop env j 0 max_retries 1

inductive DlResult where
  | ok
  | httpError (code : Nat)
  | transportFail
deriving Repr, DecidableEq

/-- Observable outcome of sec_download_file: the result, the destination
file state afterwards (none = no file), the number of requests issued and
the sleep trace. -/
structure DlOut where
  result : DlResult
  file : Option (List Nat)
  reqs : Nat
  sleeps : List ℚ
deriving Repr, DecidableEq

/-- target_path.exists() and target_path.stat().st_size > 0 (line 214). -/
def existsNonempty : Option (List Nat) → Bool
  | some content => content.length != 0
  | none => false

/-- The retry loop of sec_download_file (lines 217-244): like secGetLoop
but 404 returns successfully without touching the file, and a successful
response streams the body to a temporary file and renames it over the
destination. -/
def secDownloadLoop (env : Nat → HttpOutcome) (j : Nat → ℚ) (dest : Option (List Nat)) :
    Nat → Nat → ℚ → DlOut
  | _, 0, _ => ⟨.transportFail, dest, 0, []⟩
  | attempt, fuel + 1, backoff =>
    match env attempt with
    | .netError =>
      let r := secDownloadLoop env j dest (attempt + 1) fuel (min (backoff * 2) 60)
      ⟨r.result, r.file, r.reqs + 1, (backoff + j attempt) :: r.sleeps⟩
    | .status c body =>
      if retryStatuses.contains c then
        let r := secDownloadLoop env j dest (attempt + 1) fuel (min (backoff * 2) 60)
        ⟨r.result, r.file, r.reqs + 1, (backoff + j attempt) :: r.sleeps⟩
      else if c = 404 then ⟨.ok, dest, 1, []⟩
      else if 400 ≤ c ∧ c < 600 then ⟨.httpError c, dest, 1, []⟩
      else ⟨.ok, some body, 1, []⟩

/-- sec_download_file (lines 204-244): immediate return when the
destination already exists non-empty, otherwise the download loop. -/
def sec_download_file (env : Nat → HttpOutcome) (j : Nat → ℚ)
    (dest : Option (List Nat)) (max_retries : Nat) : DlOut :=
  if existsNonempty dest then ⟨.ok, dest, 0, []⟩
  else secDownloadLoop env j dest 0 max_retries 1

/-- The per-document loop of download_filing (lines 1199-1209): each
document is fetched with sec_download_file into a fresh target and the
counter is incremented; an error aborts the filing.  Returns the final
result and the number of documents downloaded before it. -/
def downloadDocsLoop (j : Nat → ℚ) (max_retries : Nat) :
    List (Nat → HttpOutcome) → DlResult × Nat
  | [] => (.ok, 0)
  | e :: rest =>
    match (sec_download_file e j none max_retries).result with
    | .ok => ((downloadDocsLoop j max_retries rest).1,
        (downloadDocsLoop j max_retries rest).2 + 1)
    | res => (res, 0)

/-- Backoff value used at the i-th attempt when the first attempt uses b. -/
def backoffFrom (b : ℚ) : Nat → ℚ
  | 0 => b
  | i + 1 => min (backoffFrom b i * 2) 60

/-- The sleep trace of a run whose first n attempts all retried:
min(2^i, 60) seconds of backoff plus the i-th jitter draw. -/
def sleepTrace (j : Nat → ℚ) (n : Nat) : List ℚ :=
  (List.range n).map (fun i => min ((2 : ℚ) ^ i) 60 + j i)

/-! ## Date parsing (_parse_date_yyyy_mm_dd, src/SEC_download.py lines 254-272)

datetime.date.fromisoformat is modelled on the exact YYYY-MM-DD shape it
accepts in the Python versions the source targets; a parsed date is
represented by the natural number y*10000 + m*100 + d, which is
order-isomorphic to calendar order because m <= 12 and d <= 31. -/

def isLeapYear (y : Nat) : Bool :=
  (y % 4 == 0 && y % 100 != 0) || y % 400 == 0

def monthDays (y m : Nat) : Nat :=
  if m = 2 then (if isLeapYear y then 29 else 28)
  else if m = 4 ∨ m = 6 ∨ m = 9 ∨ m = 11 then 30
  else 31

def digitVal (c : Char) : Nat := c.toNat - 48

def parseISODate (l : List Char) : Option Nat :=
  match l with
  | [y1, y2, y3, y4, s1, m1, m2, s2, d1, d2] =>
    if y1.isDigit ∧ y2.isDigit ∧ y3.isDigit ∧ y4.isDigit ∧ s1 = '-' ∧
        m1.isDigit ∧ m2.isDigit ∧ s2 = '-' ∧ d1.isDigit ∧ d2.isDigit then
      let y := ((digitVal y1 * 10 + digitVal y2) * 10 + digitVal y3) * 10 + digitVal y4
      let m := digitVal m1 * 10 + digitVal m2
      let d := digitVal d1 * 10 + digitVal d2
      if 1 ≤ y ∧ 1 ≤ m ∧ m ≤ 12 ∧ 1 ≤ d ∧ d ≤ monthDays y m then
        some (y * 10000 + m * 100 + d)
      else none
    else none
  | _ => none

/-- strip, replace / by -, then date.fromisoformat; none models the raised
ValueError (and _try_parse_date_yyyy_mm_dd, which maps it to None). -/
def _parse_date_yyyy_mm_dd (s : String) : Option Nat :=
  parseISODate ((pyStrip s.toList).map (fun c => if c = '/' then '-' else c))

/-! ## Deduplication and ordering shared by the three discovery strategies
(src/SEC_download.py lines 438-446, 778-788, 861-870)

The Python code walks the built list keeping a seen-set of accession
numbers (first occurrence wins) and then sorts by the
(filing_date, accession_no) key; list.sort on string pairs is
lexicographic on code points, as is the order below. -/

def dedupByAcc : List String → List FilingRef → List FilingRef
  | _, [] => []
  | seen, r :: rs =>
    if r.accession_no ∈ seen then dedupByAcc seen rs
    else r :: dedupByAcc (r.accession_no :: seen) rs

def refLe (x y : FilingRef) : Bool :=
  decide (x.filing_date < y.filing_date ∨
    (x.filing_date = y.filing_date ∧ x.accession_no ≤ y.accession_no))

/-- The Prop form of the sort key order. -/
def refLeP (x y : FilingRef) : Prop :=
  x.filing_date < y.filing_date ∨
    (x.filing_date = y.filing_date ∧ x.accession_no ≤ y.accession_no)

def sortRefs (l : List FilingRef) : List FilingRef := l.mergeSort refLe

/-- The invariant claimed for every discovery result: accession numbers
pairwise distinct, every output row is the first input row carrying its
accession number, every input accession number is represented, and the
output is sorted by (filing_date, accession_no). -/
def discoveryOk (input output : List FilingRef) : Prop :=
  List.Pairwise (fun a b => a.accession_no ≠ b.accession_no) output ∧
  (∀ r ∈ output, input.find? (fun x => x.accession_no == r.accession_no) = some r) ∧
  (∀ r ∈ input, ∃ s ∈ output, s.accession_no = r.accession_no) ∧
  List.Sorted refLeP output

/-! ## filter_8k_filings (src/SEC_download.py lines 752-788)

A submissions filing dict is modelled by its four string fields, with the
empty string standing for a missing/None value (the source applies
"or default" to each field). -/

structure SubmissionRow where
  form : String
  accessionNumber : String
  filingDate : String
  primaryDocument : String
deriving Repr, DecidableEq

def filter8kBuild (cik10 : String) (includeAmendments : Bool) :
    List SubmissionRow → List FilingRef
  | [] => []
  | f :: fs =>
    if pyStripS f.form = "" then filter8kBuild cik10 includeAmendments fs
    else if pyStripS f.form = "8-K" ∨ (includeAmendments ∧ pyStripS f.form = "8-K/A") then
      if f.accessionNumber = "" then filter8kBuild cik10 includeAmendments fs
      else
        ⟨cik10, f.accessionNumber,
          (if f.filingDate = "" then "unknown-date" else f.filingDate),
          pyStripS f.form, f.primaryDocument⟩ :: filter8kBuild cik10 includeAmendments fs
    else filter8kBuild cik10 includeAmendments fs

def filter_8k_filings (cik10 : String) (filings : List SubmissionRow)
    (includeAmendments : Bool) : List FilingRef :=
  sortRefs (dedupByAcc [] (filter8kBuild cik10 includeAmendments filings))

/-! ## collect_8k_targets_for_cik (src/SEC_download.py lines 791-870)

The network and the listing parser are abstracted as an oracle
server : form_type -> start offset -> parsed rows (the tuples
(form, filing_date, accession_no) the _CompanyFilingsParser emits for the
requested page).  The while-True pagination is given fuel; running out of
fuel yields none (the source would keep requesting).  Exceptions
(ValueError escaping from the all(...) early-stop check, or an invalid
start_date) are none as well.  The requested (form_type, start) pairs are
returned alongside the refs. -/

structure ListingRow where
  form : String
  filing_date : String
  accession_no : String
deriving Repr, DecidableEq

/-- The body of the per-row loop (lines 831-850): parse the date (skip the
row if unparsable), track the oldest date of the page, skip rows older
than the floor, append the reference otherwise. -/
def processRow (cik10 formType : String) (startDt : Option Nat)
    (acc : List FilingRef × Option Nat) (r : ListingRow) :
    List FilingRef × Option Nat :=
  match startDt with
  | some sd =>
    match _parse_date_yyyy_mm_dd r.filing_date with
    | none => acc
    | some fd =>
      let oldest := match acc.2 with
        | none => some fd
        | some o => some (if fd < o then fd else o)
      if fd < sd then (acc.1, oldest)
      else (acc.1 ++ [⟨cik10, r.accession_no, r.filing_date,
        (if r.form = "" then formType else r.form), ""⟩], oldest)
  | none =>
    (acc.1 ++ [⟨cik10, r.accession_no, r.filing_date,
      (if r.form = "" then formType else r.form), ""⟩], acc.2)

/-- all(_parse_date_yyyy_mm_dd(r[1]) < start_dt for r in rows): evaluated
left to right, stops at the first counterexample, raises (none) at the
first unparsable date reached. -/
def allRowsOlder (sd : Nat) : List ListingRow → Option Bool
  | [] => some true
  | r :: rs =>
    match _parse_date_yyyy_mm_dd r.filing_date with
    | none => none
    | some fd => if fd < sd then allRowsOlder sd rs else some false

/-- One form type of the pagination loop (lines 816-859).  Returns the
references appended and the start offsets requested, in order. -/
def collectPages (server : String → Nat → List ListingRow)
    (cik10 formType : String) (pageSize : Nat) (startDt : Option Nat) :
    Nat → Nat → Option (List FilingRef × List Nat)
  | 0, _ => none
  | fuel + 1, start =>
    let rows := server formType start
    if rows = [] then some ([], [start])
    else
      let pr := rows.foldl (processRow cik10 formType startDt) ([], none)
      let cont : Option (List FilingRef × List Nat) :=
        if rows.length < pageSize then some (pr.1, [start])
        else
          match collectPages server cik10 formType pageSize startDt fuel
              (start + pageSize) with
          | none => none
          | some (refs, reqs) => some (pr.1 ++ refs, start :: reqs)
      match startDt with
      | none => cont
      | some sd =>
        match pr.2 with
        | none => cont
        | some oldest =>
          if oldest < sd then
            match allRowsOlder sd rows with
            | none => none
            | some true => some (pr.1, [start])
            | some false => cont
          else cont

/-- The forms loop: 8-K, then 8-K/A when amendments are included. -/
def collectForms (server : String → Nat → List ListingRow) (cik10 : String)
    (pageSize : Nat) (startDt : Option Nat) (fuel : Nat) :
    List String → Option (List FilingRef × List (String × Nat))
  | [] => some ([], [])
  | f :: fs =>
    match collectPages server cik10 f pageSize startDt fuel 0 with
    | none => none
    | some (refs, reqs) =>
      match collectForms server cik10 pageSize startDt fuel fs with
      | none => none
      | some (refs2, reqs2) =>
        some (refs ++ refs2, reqs.map (fun st => (f, st)) ++ reqs2)

def wantedFormsC (includeAmendments : Bool) : List String :=
  "8-K" :: (if includeAmendments then ["8-K/A"] else [])

/-- The references accumulated across forms and pages, before
deduplication and sorting, with the request trace. -/
def collectRaw (server : String → Nat → List ListingRow) (cik10 : String)
    (includeAmendments : Bool) (pageSize : Nat) (startDate : Option String)
    (fuel : Nat) : Option (List FilingRef × List (String × Nat)) :=
  match startDate with
  | some s =>
    match _parse_date_yyyy_mm_dd s with
    | none => none
    | some sd =>
      collectForms server cik10 pageSize (some sd) fuel
        (wantedFormsC includeAmendments)
  | none =>
    collectForms server cik10 pageSize none fuel (wantedFormsC includeAmendments)

structure CollectOut where
  refs : List FilingRef
  reqs : List (String × Nat)
deriving Repr, DecidableEq

def collect_8k_targets_for_cik (server : String → Nat → List ListingRow)
    (cik10 : String) (includeAmendments : Bool) (pageSize : Nat)
    (startDate : Option String) (fuel : Nat) : Option CollectOut :=
  match collectRaw server cik10 includeAmendments pageSize startDate fuel with
  | none => none
  | some (refs, reqs) => some ⟨sortRefs (dedupByAcc [] refs), reqs⟩

/-! ## collect_8k_from_master_index (src/SEC_download.py lines 275-291, 344-447)

The two-URL fetch (master.idx, falling back to master.gz plus
gzip.decompress, both inside try/except) is abstracted as an oracle
fetch : year -> quarter -> Option decoded-text; none stands for both
attempts failing, in which case the quarter is skipped.  splitlines is
modelled by splitNl below, covering every boundary character it
recognises.  The current year/quarter (date.today()) is an explicit
parameter pair. -/

def _iter_year_quarters (startYear endYear endQuarter : Nat) : List (Nat × Nat) :=
  ((List.range (endYear + 1 - startYear)).map (fun k => startYear + k)).flatMap
    (fun y => (([1, 2, 3, 4].takeWhile
      (fun q => !(y == endYear && q > endQuarter))).map (fun q => (y, q))))

/-- The characters str.splitlines treats as line boundaries: LF, CR, VT,
FF, FS, GS, RS, NEL (U+0085), LS (U+2028) and PS (U+2029). -/
def isLineBoundary (c : Char) : Bool :=
  c.toNat == 10 || c.toNat == 13 || c.toNat == 11 || c.toNat == 12 ||
  c.toNat == 28 || c.toNat == 29 || c.toNat == 30 ||
  c.toNat == 133 || c.toNat == 8232 || c.toNat == 8233

/-- str.splitlines(): split at every line boundary, with CR LF counting
as a single boundary, and no trailing empty line for a terminator at the
end of the string. -/
def splitNl : List Char → List (List Char)
  | [] => []
  | c :: rest =>
    if c = '\r' then
      match rest with
      | '\n' :: rest2 => [] :: splitNl rest2
      | r => [] :: splitNl r
    else if isLineBoundary c then [] :: splitNl rest
    else
      match splitNl rest with
      | [] => [[c]]
      | h :: t => (c :: h) :: t

def masterHeaderLine : List Char :=
  "CIK|COMPANY NAME|FORM TYPE|DATE FILED|FILENAME".toList

/-- Scan the first 200 lines for the pipe header; the source records the
index after the first hit (start_i = i + 1) and 0 when none is found. -/
def masterHeaderScan : Nat → List (List Char) → Option Nat
  | _, [] => none
  | i, ln :: rest =>
    if masterHeaderLine.isPrefixOf (pyUpper (pyStrip ln)) then some (i + 1)
    else masterHeaderScan (i + 1) rest

def masterHeaderStart (lines : List (List Char)) : Nat :=
  (masterHeaderScan 0 (lines.take 200)).getD 0

def isWordChar (c : Char) : Bool := c.isAlphanum || c == '_'

def takeDigits : Nat → List Char → Option (List Char × List Char)
  | 0, l => some ([], l)
  | _ + 1, [] => none
  | n + 1, c :: l =>
    if c.isDigit then
      match takeDigits n l with
      | none => none
      | some (ds, rest) => some (c :: ds, rest)
    else none

/-- Match the accession regex (ten digits, dash, two digits, dash, six
digits, a case-insensitive .txt, trailing word boundary) at the current
position; returns group 1. -/
def accMatchHere (l : List Char) : Option (List Char) :=
  match takeDigits 10 l with
  | none => none
  | some (d1, r1) =>
    match r1 with
    | '-' :: r2 =>
      match takeDigits 2 r2 with
      | none => none
      | some (d2, r3) =>
        match r3 with
        | '-' :: r4 =>
          match takeDigits 6 r4 with
          | none => none
          | some (d3, r5) =>
            match r5 with
            | '.' :: t1 :: x1 :: t2 :: r6 =>
              if ((t1 == 't' || t1 == 'T') && (x1 == 'x' || x1 == 'X') &&
                  (t2 == 't' || t2 == 'T') &&
                  (match r6 with | [] => true | c :: _ => !isWordChar c)) then
                some (d1 ++ '-' :: d2 ++ '-' :: d3)
              else none
            | _ => none
        | _ => none
    | _ => none

/-- re.search for _MASTER_IDX_ACC_RE: leftmost match; the pattern starts
with a digit so the leading word boundary requires a non-word character
(or the start of the string) just before. -/
def accSearch : Option Char → List Char → Option (List Char)
  | _, [] => none
  | prev, c :: rest =>
    if (match prev with | none => true | some p => !isWordChar p) then
      match accMatchHere (c :: rest) with
      | some g => some g
      | none => accSearch (some c) rest
    else accSearch (some c) rest

/-- One line of a master.idx body (lines 400-436). -/
def parseMasterLine (wantedForms : List String) (startDt : Option Nat)
    (cikFilter : List String) (ln : List Char) : Option FilingRef :=
  if ln = [] ∨ ¬ ('|' ∈ ln) then none
  else
    let parts := ln.splitOn '|'
    if parts.length < 5 then none
    else
      let form := String.mk (pyStrip (parts.getD 2 []))
      let dateFiled := String.mk (pyStrip (parts.getD 3 []))
      if form ∉ wantedForms then none
      else
        match _parse_date_yyyy_mm_dd dateFiled with
        | none => none
        | some dt =>
          if (match startDt with | some sd => decide (dt < sd) | none => false) then none
          else
            match normalize_cik (String.mk (pyStrip (parts.getD 0 []))) with
            | none => none
            | some cik10 =>
              if cikFilter ≠ [] ∧ cik10 ∉ cikFilter then none
              else
                match accSearch none (pyStrip (parts.getD 4 [])) with
                | none => none
                | some acc => some ⟨cik10, String.mk acc, dateFiled, form, ""⟩

def parseMasterText (wantedForms : List String) (startDt : Option Nat)
    (cikFilter : List String) (text : String) : List FilingRef :=
  let lines := splitNl text.toList
  (lines.drop (masterHeaderStart lines)).filterMap
    (parseMasterLine wantedForms startDt cikFilter)

def wantedFormsM (includeAmendments : Bool) : List String :=
  "8-K" :: (if includeAmendments then ["8-K/A"] else [])

/-- The references accumulated across quarters, before deduplication and
sorting. -/
def masterRaw (fetch : Nat → Nat → Option String) (cikFilter : List String)
    (startYear : Nat) (startDt : Option Nat) (includeAmendments : Bool)
    (endYear endQ : Nat) : List FilingRef :=
  (_iter_year_quarters startYear endYear endQ).flatMap (fun yq =>
    match fetch yq.1 yq.2 with
    | none => []
    | some text => parseMasterText (wantedFormsM includeAmendments) startDt cikFilter text)

def collect_8k_from_master_index (fetch : Nat → Nat → Option String)
    (cikFilter : List String) (startYear : Nat) (startDate : Option String)
    (includeAmendments : Bool) (endYear endQ : Nat) : Option (List FilingRef) :=
  match startDate with
  | some s =>
    match _parse_date_yyyy_mm_dd s with
    | none => none
    | some sd =>
      some (sortRefs (dedupByAcc []
        (masterRaw fetch cikFilter startYear (some sd) includeAmendments endYear endQ)))
  | none =>
    some (sortRefs (dedupByAcc []
      (masterRaw fetch cikFilter startYear none includeAmendments endYear endQ)))

/-! ## Manifest writing and reading
(write_targets_manifest, read_targets_manifest,
src/SEC_download.py lines 294-341)

The manifest file content is a single string.  json.dumps with its default
separators and ensure_ascii=False produces, for the four-string-field
object written by the source, exactly one brace-delimited line per record
with the keys in insertion order; its string escaping (backslash, quote,
and the control characters below 0x20) is modelled by jsonEscapeChar.
json.loads in read_targets_manifest is modelled by a parser of exactly
that object shape (decodeLine); any line it cannot parse is skipped, as
the source catches the json.loads exception and continues. -/

def lbrace : Char := Char.ofNat 123

def rbrace : Char := Char.ofNat 125

/-- Lowercase hex digit (json.dumps emits lowercase \u escapes). -/
def toHexDigit (n : Nat) : Char :=
  if n < 10 then Char.ofNat (48 + n) else Char.ofNat (97 + (n - 10))

/-- json.dumps escaping of one character (ensure_ascii=False). -/
def jsonEscapeChar (c : Char) : List Char :=
  if c = '\\' then ['\\', '\\']
  else if c = '"' then ['\\', '"']
  else if c.toNat = 8 then ['\\', 'b']
  else if c.toNat = 9 then ['\\', 't']
  else if c.toNat = 10 then ['\\', 'n']
  else if c.toNat = 12 then ['\\', 'f']
  else if c.toNat = 13 then ['\\', 'r']
  else if c.toNat < 32 then
    ['\\', 'u', '0', '0', toHexDigit (c.toNat / 16), toHexDigit (c.toNat % 16)]
  else [c]

def jsonEscape (l : List Char) : List Char := l.flatMap jsonEscapeChar

/-- A JSON object key followed by the separator and the opening quote of
its string value. -/
def jsonKey (k : String) : List Char :=
  '"' :: k.toList ++ ['"', ':', ' ', '"']

/-- One manifest line: json.dumps of the four-field object.  The appends
are grouped to mirror the left-to-right consumption by the reader. -/
def manifestLine (t : FilingRef) : List Char :=
  (lbrace :: jsonKey "cik10") ++ (jsonEscape t.cik10.toList ++ (['"', ',', ' '] ++
    (jsonKey "accession_no" ++ (jsonEscape t.accession_no.toList ++ (['"', ',', ' '] ++
    (jsonKey "filing_date" ++ (jsonEscape t.filing_date.toList ++ (['"', ',', ' '] ++
    (jsonKey "form" ++ (jsonEscape t.form.toList ++ ['"', rbrace]))))))))))

def write_targets_manifest (ts : List FilingRef) : String :=
  String.mk (ts.flatMap (fun t => manifestLine t ++ ['\n']))

def fromHexDigit (c : Char) : Option Nat :=
  if c.isDigit then some (c.toNat - 48)
  else if 'a' ≤ c ∧ c ≤ 'f' then some (c.toNat - 87)
  else if 'A' ≤ c ∧ c ≤ 'F' then some (c.toNat - 55)
  else none

/-- JSON string body parser: consume characters up to the closing quote,
decoding the escape sequences json.loads accepts, rejecting raw control
characters. -/
def jsonString : List Char → Option (List Char × List Char)
  | [] => none
  | c :: rest =>
    if c = '"' then some ([], rest)
    else if c = '\\' then
      match rest with
      | [] => none
      | e :: r2 =>
        if e = 'u' then
          match r2 with
          | h1 :: h2 :: h3 :: h4 :: r3 =>
            match fromHexDigit h1, fromHexDigit h2, fromHexDigit h3, fromHexDigit h4 with
            | some a, some b, some c3, some d =>
              match jsonString r3 with
              | none => none
              | some (sInner, rest2) =>
                some (Char.ofNat (((a * 16 + b) * 16 + c3) * 16 + d) :: sInner, rest2)
            | _, _, _, _ => none
          | _ => none
        else
          match (if e = '"' then some '"' else if e = '\\' then some '\\'
            else if e = '/' then some '/' else if e = 'b' then some (Char.ofNat 8)
            else if e = 'f' then some (Char.ofNat 12) else if e = 'n' then some '\n'
            else if e = 'r' then some '\r' else if e = 't' then some '\t'
            else none) with
          | none => none
          | some d =>
            match jsonString r2 with
            | none => none
            | some (sInner, rest2) => some (d :: sInner, rest2)
    else if c.toNat < 32 then none
    else
      match jsonString rest with
      | none => none
      | some (sInner, rest2) => some (c :: sInner, rest2)

/-- Expect a literal character sequence, returning the remainder. -/
def expectChars : List Char → List Char → Option (List Char)
  | [], l => some l
  | _ :: _, [] => none
  | p :: ps, c :: cs => if c = p then expectChars ps cs else none

/-- Model of json.loads restricted to the object shape produced by
write_targets_manifest: a flat object with the four string fields in
order.  Lines of any other shape are rejected (none), which the reader
skips. -/
def decodeLine (l : List Char) : Option (String × String × String × String) :=
  match expectChars (lbrace :: jsonKey "cik10") l with
  | none => none
  | some r1 =>
    match jsonString r1 with
    | none => none
    | some (a, r2) =>
      match expectChars (',' :: ' ' :: jsonKey "accession_no") r2 with
      | none => none
      | some r3 =>
        match jsonString r3 with
        | none => none
        | some (b, r4) =>
          match expectChars (',' :: ' ' :: jsonKey "filing_date") r4 with
          | none => none
          | some r5 =>
            match jsonString r5 with
            | none => none
            | some (c, r6) =>
              match expectChars (',' :: ' ' :: jsonKey "form") r6 with
              | none => none
              | some r7 =>
                match jsonString r7 with
                | none => none
                | some (d, r8) =>
                  match r8 with
                  | [rb] =>
                    if rb = rbrace then
                      some (String.mk a, String.mk b, String.mk c, String.mk d)
                    else none
                  | _ => none

/-- The line loop of read_targets_manifest (lines 317-339): strip, skip
empty lines, skip unparsable lines, normalize the company id (a
ValueError there propagates: none), default missing date/form, skip
records without an accession number. -/
def readManifestLines : List (List Char) → Option (List FilingRef)
  | [] => some []
  | ln :: rest =>
    if pyStrip ln = [] then readManifestLines rest
    else
      match decodeLine (pyStrip ln) with
      | none => readManifestLines rest
      | some (a, b, c, d) =>
        match normalize_cik a with
        | none => none
        | some cik10 =>
          if b = "" then readManifestLines rest
          else
            match readManifestLines rest with
            | none => none
            | some out =>
              some (⟨cik10, b, (if c = "" then "unknown-date" else c),
                (if d = "" then "8-K" else d), ""⟩ :: out)

def read_targets_manifest (content : String) : Option (List FilingRef) :=
  match readManifestLines (splitNl content.toList) with
  | none => none
  | some out => some (sortRefs out)

/-- The projection a reconstructed manifest record preserves. -/
def refQuad (t : FilingRef) : String × String × String × String :=
  (t.cik10, t.accession_no, t.filing_date, t.form)

/-- A FilingRef with its primary document dropped, as reconstruction
yields. -/
def clearPrim (t : FilingRef) : FilingRef :=
  ⟨t.cik10, t.accession_no, t.filing_date, t.form, ""⟩

/-! ## Sample data used by concrete witnesses -/

def c2rowNew : ListingRow := ⟨"8-K", "2020-02-03", "0000000000-20-000001"⟩

def c2rowOld : ListingRow := ⟨"8-K", "2019-12-02", "0000000000-19-000001"⟩

/-- A full page of 100 rows, newest-first, whose 37th row (index 36) is
the first row dated before the floor 2020-01-01. -/
def c2page0 : List ListingRow :=
  List.replicate 36 c2rowNew ++ List.replicate 64 c2rowOld

def c2server : String → Nat → List ListingRow :=
  fun _ st => if st = 0 then c2page0 else if st = 100 then [c2rowOld] else []

def c2serverAllOld : String → Nat → List ListingRow :=
  fun _ st => if st = 0 then List.replicate 100 c2rowOld else []

/-- Newest-first ordering between two listing rows: whenever both dates
parse, the later row is not newer. -/
def newerEq (a b : ListingRow) : Prop :=
  ∀ da db, _parse_date_yyyy_mm_dd a.filing_date = some da →
    _parse_date_yyyy_mm_dd b.filing_date = some db → db ≤ da

def c7row : ListingRow := ⟨"", "2023-11-03", "0000320193-23-000106"⟩

def c7server : String → Nat → List ListingRow :=
  fun _ st => if st = 0 then [c7row] else []

def c7raw : List FilingRef :=
  [⟨"0000320193", "0000320193-23-000106", "2023-11-03", "8-K", ""⟩]

def sampleRef1 : FilingRef :=
  ⟨"0000320193", "0000320193-23-000106", "2023-11-03", "8-K", "aapl-20231102.htm"⟩

def sampleRef2 : FilingRef :=
  ⟨"0000320193", "0000320193-20-000001", "2020-01-02", "8-K", ""⟩

/-- A target whose form value contains a raw LINE SEPARATOR (U+2028):
json.dumps with ensure_ascii=False writes it unescaped (it only escapes
backslash, quote and code points below 0x20), and str.splitlines treats
it as a line boundary on readback. -/
def badRef : FilingRef :=
  ⟨"0000000000", "0000000000-20-000001", "2020-01-01",
    String.mk ['8', '-', 'K', Char.ofNat 8232], ""⟩

-- quick sanity examples (definitions evaluate)
example : normalize_cik "320193" = some "0000320193" := by decide
example : normalize_cik "abc" = none := by decide
example : safe_filename "a/b\\c d.htm iXBRL" = "c" := by decide
example : safe_filename "dir/file.htm iXBRL" = "file.htm" := by decide
example : safe_filename "   " = "" := by decide

/-! # Theorems -/

/-! ## Generic string facts -/

theorem toList_mk (l : List Char) : (String.mk l).toList = l := rfl

theorem mk_toList (s : String) : String.mk s.toList = s := rfl

theorem length_mk (l : List Char) : (String.mk l).length = l.length := rfl

/-! ## C9: normalize_cik -/

theorem cikTail10_subset {d : List Char} {c : Char} (hc : c ∈ cikTail10 d) : c ∈ d := by
  unfold cikTail10 at hc
  split at hc
  · exact List.mem_of_mem_drop hc
  · exact hc

theorem cikTail10_length_le (d : List Char) : (cikTail10 d).length ≤ 10 := by
  unfold cikTail10
  split
  · rw [List.length_drop]; omega
  · omega

theorem cikTail10_eq_self {d : List Char} (h : ¬ d.length > 10) : cikTail10 d = d :=
  if_neg h

/-- C9: normalize_cik is idempotent on every input on which it succeeds, every
successful output is exactly 10 characters long and consists only of digits,
and it fails (raises ValueError, modelled as none) exactly when the input
contains no digit. -/
theorem C9_normalize_cik_canonical (x y : String) :
    (normalize_cik x = some y →
      normalize_cik y = some y ∧ y.length = 10 ∧ ∀ c ∈ y.toList, c.isDigit = true) ∧
    (normalize_cik x = none ↔ ∀ c ∈ x.toList, c.isDigit = false) := by
  constructor
  · intro hx
    unfold normalize_cik at hx
    by_cases hnil : cikDigits x = []
    · rw [if_pos hnil] at hx; exact absurd hx (by simp)
    · rw [if_neg hnil] at hx
      have hy : String.mk (List.replicate (10 - (cikTail10 (cikDigits x)).length) '0'
          ++ cikTail10 (cikDigits x)) = y := by exact_mod_cast Option.some.inj hx
      subst hy
      have hdig : ∀ c ∈ cikDigits x, c.isDigit = true := by
        intro c hc; exact (List.mem_filter.mp hc).2
      have hlen10 : (cikTail10 (cikDigits x)).length ≤ 10 := cikTail10_length_le _
      have hall : ∀ c ∈ (List.replicate (10 - (cikTail10 (cikDigits x)).length) '0'
          ++ cikTail10 (cikDigits x)), c.isDigit = true := by
        intro c hc
        rcases List.mem_append.mp hc with hc | hc
        · rw [(List.eq_of_mem_replicate hc)]; decide
        · exact hdig c (cikTail10_subset hc)
      have hlen : (List.replicate (10 - (cikTail10 (cikDigits x)).length) '0'
          ++ cikTail10 (cikDigits x)).length = 10 := by
        rw [List.length_append, List.length_replicate]; omega
      refine ⟨?_, ?_, ?_⟩
      · have hfe : cikDigits (String.mk (List.replicate
            (10 - (cikTail10 (cikDigits x)).length) '0' ++ cikTail10 (cikDigits x)))
            = List.replicate (10 - (cikTail10 (cikDigits x)).length) '0'
              ++ cikTail10 (cikDigits x) := by
          unfold cikDigits
          rw [toList_mk]
          exact List.filter_eq_self.mpr hall
        unfold normalize_cik
        rw [hfe, if_neg (by intro h0; rw [h0] at hlen; simp at hlen),
          cikTail10_eq_self (by rw [hlen]; omega), hlen]
        simp
      · rw [length_mk]; exact hlen
      · rw [toList_mk]; exact hall
  · constructor
    · intro hn c hc
      unfold normalize_cik at hn
      by_cases hnil : cikDigits x = []
      · by_contra hcd
        have hmem : c ∈ cikDigits x :=
          List.mem_filter.mpr ⟨hc, by simpa using hcd⟩
        rw [hnil] at hmem; exact absurd hmem (by simp)
      · rw [if_neg hnil] at hn; exact absurd hn (by simp)
    · intro hall
      have hnil : cikDigits x = [] :=
        List.filter_eq_nil_iff.mpr (fun c hc => by simp [hall c hc])
      unfold normalize_cik
      rw [if_pos hnil]

/-- Witness for C9 at a concrete input. -/
theorem C9_witness :
    normalize_cik "0000320193" = some "0000320193" ∧ ("0000320193" : String).length = 10 := by
  have h := (C9_normalize_cik_canonical "320193" "0000320193").1 (by decide)
  exact ⟨h.1, h.2.1⟩

/-! ## C10: safe_filename -/

theorem mem_pyStrip {l : List Char} {c : Char} (hc : c ∈ pyStrip l) : c ∈ l := by
  unfold pyStrip at hc
  rw [List.mem_reverse] at hc
  have h1 := (List.dropWhile_sublist pyIsSpace).mem hc
  rw [List.mem_reverse] at h1
  exact (List.dropWhile_sublist pyIsSpace).mem h1

theorem mem_lastSlashComp {l : List Char} {c : Char} (hc : c ∈ lastSlashComp l) :
    c ∈ l ∧ c ≠ '/' := by
  unfold lastSlashComp at hc
  rw [List.mem_reverse] at hc
  refine ⟨?_, ?_⟩
  · have h1 := (List.takeWhile_sublist (fun c => c != '/')).mem hc
    rw [List.mem_reverse] at h1
    exact h1
  · have h2 := List.mem_takeWhile_imp hc
    simpa using h2

/-- C10: for every input, safe_filename returns a string containing no slash,
no backslash and no whitespace, and a whitespace-only (or empty) input yields
the empty string. -/
theorem C10_safe_filename_safe (s : String) :
    (∀ c ∈ (safe_filename s).toList, c ≠ '/' ∧ c ≠ '\\' ∧ pyIsSpace c = false) ∧
    ((∀ c ∈ s.toList, pyIsSpace c = true) → safe_filename s = "") := by
  constructor
  · intro c hc
    unfold safe_filename at hc
    split at hc
    · exact absurd hc (by simp)
    · rw [toList_mk] at hc
      have hspace : pyIsSpace c = false := by
        have := List.mem_takeWhile_imp hc
        simpa using this
      have hmem : c ∈ sfCore s := (List.takeWhile_sublist _).mem hc
      unfold sfCore at hmem
      have hmem2 := mem_pyStrip hmem
      obtain ⟨hmem3, hslash⟩ := mem_lastSlashComp hmem2
      refine ⟨hslash, ?_, hspace⟩
      obtain ⟨a, _, ha⟩ := List.mem_map.mp hmem3
      intro hbs
      by_cases hab : a = '\\'
      · rw [if_pos hab] at ha
        rw [← ha] at hbs
        exact absurd hbs (by decide)
      · rw [if_neg hab] at ha
        exact hab (by rw [ha, hbs])
  · intro hall
    have hcore : sfCore s = [] := by
      unfold sfCore
      have hsp : ∀ c ∈ lastSlashComp (s.toList.map
          (fun c => if c = '\\' then '/' else c)), pyIsSpace c = true := by
        intro c hc
        obtain ⟨hmem, _⟩ := mem_lastSlashComp hc
        obtain ⟨a, ha, hfa⟩ := List.mem_map.mp hmem
        have haspace := hall a ha
        have hab : a ≠ '\\' := by
          intro h; rw [h] at haspace; exact absurd haspace (by decide)
        rw [if_neg hab] at hfa
        rw [← hfa]; exact haspace
      unfold pyStrip
      rw [List.dropWhile_eq_nil_iff.mpr (fun c hc => hsp c hc)]
      simp
    unfold safe_filename
    rw [if_pos hcore]

/-- Witness for C10 at concrete inputs. -/
theorem C10_witness : safe_filename " \t " = "" :=
  (C10_safe_filename_safe " \t ").2 (by decide)

/-! ## C3: shard partition -/

/-- C3: for every hash function (in particular the SHA-1 based one used by
run_download), every K at least 1 and every target list, the K shard filters
are pairwise disjoint, every target of the list lies in some shard with
1 <= N <= K, and the shard sizes add up to the whole list: every target
belongs to exactly one shard. -/
theorem C3_shard_partition (h : String → Nat) (k : Nat) (hk : 1 ≤ k)
    (ts : List FilingRef) :
    (∀ n m, 1 ≤ n → n ≤ k → 1 ≤ m → m ≤ k → n ≠ m →
      ∀ t, t ∈ shardFilter h k n ts → t ∉ shardFilter h k m ts) ∧
    (∀ t, t ∈ ts ↔ ∃ n, 1 ≤ n ∧ n ≤ k ∧ t ∈ shardFilter h k n ts) ∧
    (∑ i ∈ Finset.range k, (shardFilter h k (i + 1) ts).length) = ts.length := by
  refine ⟨?_, ?_, ?_⟩
  · intro n m hn hnk hm hmk hnm t htn htm
    have h1 := (List.mem_filter.mp htn).2
    have h2 := (List.mem_filter.mp htm).2
    simp only [beq_iff_eq] at h1 h2
    omega
  · intro t
    constructor
    · intro ht
      have hlt : h t.accession_no % k < k := Nat.mod_lt _ (by omega)
      refine ⟨h t.accession_no % k + 1, by omega, by omega, ?_⟩
      exact List.mem_filter.mpr ⟨ht, by simp⟩
    · rintro ⟨n, _, _, htn⟩
      exact (List.mem_filter.mp htn).1
  · induction ts with
    | nil => simp [shardFilter]
    | cons t ts ih =>
      unfold shardFilter at *
      calc (∑ i ∈ Finset.range k,
              (List.filter (fun x => h x.accession_no % k == i + 1 - 1) (t :: ts)).length)
          = ∑ i ∈ Finset.range k, ((if h t.accession_no % k = i then 1 else 0)
              + (List.filter (fun x => h x.accession_no % k == i + 1 - 1) ts).length) := by
            refine Finset.sum_congr rfl (fun i _ => ?_)
            rw [List.filter_cons]
            by_cases hi : h t.accession_no % k = i
            · rw [if_pos (by simp [hi]), if_pos hi]
              simp [Nat.add_comm]
            · rw [if_neg (by simp [hi]), if_neg hi]
              simp
        _ = (∑ i ∈ Finset.range k, if h t.accession_no % k = i then 1 else 0)
              + ∑ i ∈ Finset.range k,
                (List.filter (fun x => h x.accession_no % k == i + 1 - 1) ts).length :=
            Finset.sum_add_distrib
        _ = 1 + ts.length := by
            rw [ih, Finset.sum_ite_eq (Finset.range k) (h t.accession_no % k) (fun _ => 1),
              if_pos (Finset.mem_range.mpr (Nat.mod_lt _ (by omega)))]
        _ = (t :: ts).length := by simp [Nat.add_comm]

/-! ## C1: filing-index parser column logic (intended semantics)

The source block itself is not importable Python (IndentationError at line
944); the theorem below settles the behaviour of the evidently intended
logic as embedded above. -/

/-- C1: on a page whose header row reads Seq | Description | Document |
Type | Size, the filing-index parser reads data rows through the
dynamically located column indices (document = cell 2, type = cell 3),
and the fixed 3-column guess (document = cell 0, type = cell 2) is used
only when no header row was seen. -/
theorem C1_index_parser_dynamic_columns :
    (edgarIndexFeed
      [(true, ["Seq", "Description", "Document", "Type", "Size"]),
       (false, ["1", "Main document", "form8k.htm", "8-K", "12345"])]).rows
      = [("form8k.htm", "8-K")] ∧
    (edgarIndexFeed
      [(true, ["Seq", "Description", "Document", "Type", "Size"]),
       (false, ["1", "Main document", "form8k.htm", "8-K", "12345"])]).doc_col_idx
      = some 2 ∧
    (edgarIndexFeed
      [(true, ["Seq", "Description", "Document", "Type", "Size"]),
       (false, ["1", "Main document", "form8k.htm", "8-K", "12345"])]).type_col_idx
      = some 3 ∧
    (edgarIndexFeed [(false, ["doc.htm", "Some description", "EX-99.1"])]).rows
      = [("doc.htm", "EX-99.1")] := by
  decide

/-- Witness for C3 at a concrete hash, K and target list. -/
theorem C3_witness :
    (∑ i ∈ Finset.range 2,
      (shardFilter (fun s => s.length) 2 (i + 1) [sampleRef1, sampleRef2]).length) = 2 :=
  (C3_shard_partition (fun s => s.length) 2 (by decide) [sampleRef1, sampleRef2]).2.2

/-! ## Transport lemmas -/

theorem backoffFrom_shift (b : ℚ) (i : Nat) :
    backoffFrom (min (b * 2) 60) i = backoffFrom b (i + 1) := by
  induction i with
  | zero => simp [backoffFrom]
  | succ i ih =>
    conv_lhs => rw [backoffFrom]
    conv_rhs => rw [backoffFrom]
    rw [ih]

theorem backoffFrom_one (i : Nat) : backoffFrom 1 i = min ((2 : ℚ) ^ i) 60 := by
  induction i with
  | zero => norm_num [backoffFrom]
  | succ i ih =>
    rw [backoffFrom, ih, pow_succ]
    rcases le_total ((2 : ℚ) ^ i) 60 with h | h
    · rw [min_eq_left h]
    · rw [min_eq_right h]
      rw [min_eq_right (show (60 : ℚ) ≤ 2 ^ i * 2 by linarith)]
      rw [min_eq_right (show (60 : ℚ) ≤ 60 * 2 by norm_num)]

theorem secGetLoop_skip (env : Nat → HttpOutcome) (j : Nat → ℚ) (k : Nat) :
    ∀ (a n : Nat) (b : ℚ), (∀ i, i < k → retryable (env (a + i)) = true) → k ≤ n →
    secGetLoop env j a n b =
      ((secGetLoop env j (a + k) (n - k) (backoffFrom b k)).1,
        ((List.range k).map (fun i => backoffFrom b i + j (a + i))) ++
          (secGetLoop env j (a + k) (n - k) (backoffFrom b k)).2) := by
  induction k with
  | zero =>
    intro a n b _ _
    simp [backoffFrom]
  | succ k ih =>
    intro a n b h hk
    cases n with
    | zero => omega
    | succ m =>
      have h0 : retryable (env a) = true := by
        have := h 0 (Nat.succ_pos k); simpa using this
      have h' : ∀ i, i < k → retryable (env (a + 1 + i)) = true := by
        intro i hi
        have := h (i + 1) (by omega)
        have harith : a + (i + 1) = a + 1 + i := by omega
        rwa [harith] at this
      have hrec := ih (a + 1) m (min (b * 2) 60) h' (by omega)
      have hidx : a + (k + 1) = a + 1 + k := by omega
      have hsub : m + 1 - (k + 1) = m - k := by omega
      have htrace : (List.range (k + 1)).map (fun i => backoffFrom b i + j (a + i)) =
          (b + j a) ::
            (List.range k).map (fun i => backoffFrom (min (b * 2) 60) i + j (a + 1 + i)) := by
        rw [List.range_succ_eq_map, List.map_cons, List.map_map]
        refine congrArg₂ _ (by simp [backoffFrom]) ?_
        refine List.map_congr_left (fun i _ => ?_)
        simp only [Function.comp]
        rw [backoffFrom_shift]
        have : a + (i + 1) = a + 1 + i := by omega
        rw [this]
      cases henv : env a with
      | netError =>
        simp only [secGetLoop, henv]
        rw [hrec, htrace, hidx, hsub, ← backoffFrom_shift]
        simp
      | status c body =>
        rw [henv] at h0
        simp only [retryable] at h0
        simp only [secGetLoop, henv, h0, if_true]
        rw [hrec, htrace, hidx, hsub, ← backoffFrom_shift]
        simp

theorem secDownloadLoop_all_retry (env : Nat → HttpOutcome) (j : Nat → ℚ)
    (dest : Option (List Nat)) (k : Nat) :
    ∀ (a : Nat) (b : ℚ), (∀ i, i < k → retryable (env (a + i)) = true) →
    secDownloadLoop env j dest a k b =
      ⟨.transportFail, dest, k, (List.range k).map (fun i => backoffFrom b i + j (a + i))⟩ := by
  induction k with
  | zero =>
    intro a b _
    simp [secDownloadLoop]
  | succ k ih =>
    intro a b h
    have h0 : retryable (env a) = true := by
      have := h 0 (Nat.succ_pos k); simpa using this
    have h' : ∀ i, i < k → retryable (env (a + 1 + i)) = true := by
      intro i hi
      have := h (i + 1) (by omega)
      have harith : a + (i + 1) = a + 1 + i := by omega
      rwa [harith] at this
    have hrec := ih (a + 1) (min (b * 2) 60) h'
    have htrace : (List.range (k + 1)).map (fun i => backoffFrom b i + j (a + i)) =
        (b + j a) ::
          (List.range k).map (fun i => backoffFrom (min (b * 2) 60) i + j (a + 1 + i)) := by
      rw [List.range_succ_eq_map, List.map_cons, List.map_map]
      refine congrArg₂ _ (by simp [backoffFrom]) ?_
      refine List.map_congr_left (fun i _ => ?_)
      simp only [Function.comp]
      rw [backoffFrom_shift]
      have : a + (i + 1) = a + 1 + i := by omega
      rw [this]
    cases henv : env a with
    | netError =>
      simp only [secDownloadLoop, henv]
      rw [hrec, htrace]
    | status c body =>
      rw [henv] at h0
      simp only [retryable] at h0
      simp only [secDownloadLoop, henv, h0, if_true]
      rw [hrec, htrace]

theorem trace_one (j : Nat → ℚ) (n : Nat) :
    (List.range n).map (fun i => backoffFrom 1 i + j (0 + i)) = sleepTrace j n := by
  unfold sleepTrace
  refine List.map_congr_left (fun i _ => ?_)
  rw [backoffFrom_one, Nat.zero_add]

/-! ## C6: transport retry policy -/

/-- C6 (amended): the four transport operations share one retry policy:
sec_get_text and sec_get_bytes behave exactly as sec_get_json; when all 10
attempts hit a connection error or a status in the retry set
403/429/500/502/503/504, the operation sleeps the backoff sequence
min(2^i, 60) + jitter_i and then fails with the transport-failure error
(RuntimeError), and sec_download_file does the same; each jitter draw in
[0,1) keeps every sleep within [min(2^i,60), min(2^i,60)+1); and a
non-retryable status reached at attempt k raises an HTTP error carrying
the status code when it is 4xx/5xx (rather than non-2xx: 3xx statuses
such as 304 are returned as success), and returns the body otherwise. -/
theorem C6_transport_policy (env : Nat → HttpOutcome) (j : Nat → ℚ) :
    (∀ n, sec_get_text env j n = sec_get_json env j n ∧
      sec_get_bytes env j n = sec_get_json env j n) ∧
    ((∀ i, i < 10 → retryable (env i) = true) →
      sec_get_json env j 10 = (.transportFail, sleepTrace j 10) ∧
      sec_download_file env j none 10 = ⟨.transportFail, none, 10, sleepTrace j 10⟩) ∧
    ((∀ i, 0 ≤ j i ∧ j i < 1) → ∀ s ∈ sleepTrace j 10, ∃ i, i < 10 ∧
      min ((2 : ℚ) ^ i) 60 ≤ s ∧ s < min ((2 : ℚ) ^ i) 60 + 1) ∧
    (∀ k c body, k < 10 → (∀ i, i < k → retryable (env i) = true) →
      env k = .status c body → retryable (env k) = false →
      ((400 ≤ c ∧ c < 600 → (sec_get_json env j 10).1 = .httpError c) ∧
       (¬ (400 ≤ c ∧ c < 600) → (sec_get_json env j 10).1 = .ok body))) := by
  refine ⟨fun n => ⟨rfl, rfl⟩, ?_, ?_, ?_⟩
  · intro h
    have h' : ∀ i, i < 10 → retryable (env (0 + i)) = true := by
      intro i hi; rw [Nat.zero_add]; exact h i hi
    constructor
    · have hs := secGetLoop_skip env j 10 0 10 1 h' (le_refl 10)
      have hz : secGetLoop env j (0 + 10) (10 - 10) (backoffFrom 1 10)
          = (.transportFail, []) := rfl
      rw [hz] at hs
      show secGetLoop env j 0 10 1 = _
      rw [hs, List.append_nil, trace_one]
    · have hd := secDownloadLoop_all_retry env j none 10 0 1 h'
      show (if existsNonempty none then _ else secDownloadLoop env j none 0 10 1) = _
      rw [if_neg (by simp [existsNonempty]), hd, trace_one]
  · intro hj s hs
    obtain ⟨i, hi, rfl⟩ := List.mem_map.mp hs
    exact ⟨i, List.mem_range.mp hi,
      by linarith [(hj i).1], by linarith [(hj i).2]⟩
  · intro k c body hk hpre henv hnr
    have h' : ∀ i, i < k → retryable (env (0 + i)) = true := by
      intro i hi; rw [Nat.zero_add]; exact hpre i hi
    have hs := secGetLoop_skip env j k 0 10 1 h' (Nat.le_of_lt hk)
    have hfst : (sec_get_json env j 10).1
        = (secGetLoop env j (0 + k) (10 - k) (backoffFrom 1 k)).1 := by
      show (secGetLoop env j 0 10 1).1 = _
      rw [hs]
    rw [henv] at hnr
    simp only [retryable] at hnr
    have hfuel : 10 - k = (9 - k) + 1 := by omega
    rw [Nat.zero_add, hfuel] at hfst
    simp only [secGetLoop, henv, hnr, Bool.false_eq_true, if_false] at hfst
    constructor
    · intro h45
      rw [hfst, if_pos h45]
    · intro h45
      rw [hfst, if_neg h45]

/-- C6 counterexample: status 304 is neither 2xx nor in the retry set, yet
sec_get_json returns it as a success with the body instead of raising an
HTTP error, refuting the claim as stated for non-2xx statuses outside
4xx/5xx. -/
theorem C6_counterexample :
    ¬ (200 ≤ 304 ∧ 304 < 300) ∧ 304 ∉ retryStatuses ∧
    sec_get_json (fun _ => .status 304 [7]) (fun _ => 0) 10 = (.ok [7], []) ∧
    (sec_get_json (fun _ => .status 304 [7]) (fun _ => 0) 10).1
      ≠ .httpError 304 := by
  refine ⟨by decide, by decide, rfl, by decide⟩

/-- Witness for C6 at a concrete environment where every attempt times out. -/
theorem C6_witness :
    sec_get_json (fun _ => .netError) (fun _ => 0) 10 =
      (.transportFail, sleepTrace (fun _ => 0) 10) :=
  (((C6_transport_policy (fun _ => .netError) (fun _ => 0)).2.1)
    (fun _ _ => rfl)).1

/-! ## C4: sec_download_file idempotence -/

/-- C4 (amended): if the destination file already exists with size greater
than zero, sec_download_file returns immediately, performs no network
request and leaves the file unchanged; consequently a second call after a
download that left a nonempty file performs zero additional network
requests.  (The nonempty proviso is forced by the counterexample: a
successful download of an empty body leaves a zero-length file, which the
presence check does not accept.) -/
theorem C4_download_idempotent (env env2 : Nat → HttpOutcome) (j j2 : Nat → ℚ)
    (dest : Option (List Nat)) (n n2 : Nat) :
    (existsNonempty dest = true → sec_download_file env j dest n = ⟨.ok, dest, 0, []⟩) ∧
    (∀ b, (sec_download_file env j dest n).file = some b → b ≠ [] →
      sec_download_file env2 j2 (sec_download_file env j dest n).file n2
        = ⟨.ok, some b, 0, []⟩) := by
  constructor
  · intro h
    unfold sec_download_file
    rw [if_pos h]
  · intro b hb hne
    rw [hb]
    unfold sec_download_file
    rw [if_pos (by simp [existsNonempty, hne])]

/-- C4 counterexample: a download whose 200 response has an empty body
succeeds but writes a zero-length file, and the second call then performs
a network request again (1, not 0). -/
theorem C4_counterexample :
    (sec_download_file (fun _ => .status 200 []) (fun _ => 0) none 10).result = .ok ∧
    (sec_download_file (fun _ => .status 200 []) (fun _ => 0)
      (sec_download_file (fun _ => .status 200 []) (fun _ => 0) none 10).file 10).reqs
      = 1 := by
  exact ⟨rfl, rfl⟩

/-- Witness for C4 at a concrete nonempty destination. -/
theorem C4_witness :
    sec_download_file (fun _ => .netError) (fun _ => 0) (some [1, 2]) 10
      = ⟨.ok, some [1, 2], 0, []⟩ :=
  (C4_download_idempotent (fun _ => .netError) (fun _ => .netError)
    (fun _ => 0) (fun _ => 0) (some [1, 2]) 10 10).1 (by decide)

/-! ## C5: 404 as skip -/

theorem downloadDocsLoop_cons (j : Nat → ℚ) (n : Nat) (e : Nat → HttpOutcome)
    (rest : List (Nat → HttpOutcome))
    (h : (sec_download_file e j none n).result = .ok) :
    downloadDocsLoop j n (e :: rest)
      = ((downloadDocsLoop j n rest).1, (downloadDocsLoop j n rest).2 + 1) := by
  simp only [downloadDocsLoop, h]

theorem downloadDocsLoop_cons_err (j : Nat → ℚ) (n : Nat) (e : Nat → HttpOutcome)
    (rest : List (Nat → HttpOutcome))
    (h : (sec_download_file e j none n).result ≠ .ok) :
    downloadDocsLoop j n (e :: rest) = ((sec_download_file e j none n).result, 0) := by
  simp only [downloadDocsLoop]

/-- C5: when the response to a document fetch is 404, sec_download_file
returns normally with the destination file untouched (no file created or
modified), and inside the per-filing document loop such a fetch leaves the
success of all other fetches of the filing unaffected. -/
theorem C5_404_skip (env : Nat → HttpOutcome) (j : Nat → ℚ) (body : List Nat)
    (n : Nat) (hn : 0 < n) (h404 : env 0 = .status 404 body) :
    (∀ dest, (sec_download_file env j dest n).result = .ok ∧
      (sec_download_file env j dest n).file = dest) ∧
    (∀ a bl, (downloadDocsLoop j n (a ++ bl)).1 = .ok →
      downloadDocsLoop j n (a ++ env :: bl)
        = (.ok, (downloadDocsLoop j n (a ++ bl)).2 + 1)) := by
  have hone : ∀ dest, existsNonempty dest = false →
      sec_download_file env j dest n = ⟨.ok, dest, 1, []⟩ := by
    intro dest hd
    unfold sec_download_file
    rw [if_neg (by simp [hd])]
    cases n with
    | zero => omega
    | succ m =>
      simp only [secDownloadLoop, h404,
        show retryStatuses.contains 404 = false from rfl,
        Bool.false_eq_true, if_false]
      simp
  constructor
  · intro dest
    cases hd : existsNonempty dest with
    | true =>
      unfold sec_download_file
      rw [if_pos hd]
      exact ⟨rfl, rfl⟩
    | false =>
      rw [hone dest hd]
      exact ⟨rfl, rfl⟩
  · intro a
    induction a with
    | nil =>
      intro bl hok
      rw [List.nil_append] at hok ⊢
      rw [downloadDocsLoop_cons j n env bl (by rw [hone none rfl])]
      exact congrArg₂ Prod.mk hok rfl
    | cons e a ih =>
      intro bl hok
      simp only [List.cons_append] at hok ⊢
      cases hres : (sec_download_file e j none n).result with
      | ok =>
        rw [downloadDocsLoop_cons j n e (a ++ bl) hres] at hok
        have hok2 : (downloadDocsLoop j n (a ++ bl)).1 = .ok := hok
        rw [downloadDocsLoop_cons j n e (a ++ env :: bl) hres,
          downloadDocsLoop_cons j n e (a ++ bl) hres, ih bl hok2]
      | httpError c =>
        rw [downloadDocsLoop_cons_err j n e (a ++ bl) (by rw [hres]; simp)] at hok
        rw [hres] at hok
        exact absurd hok (by simp)
      | transportFail =>
        rw [downloadDocsLoop_cons_err j n e (a ++ bl) (by rw [hres]; simp)] at hok
        rw [hres] at hok
        exact absurd hok (by simp)

/-- Witness for C5 at a concrete 404 environment, alongside a filing whose
other document downloads succeed. -/
theorem C5_witness :
    (sec_download_file (fun _ => .status 404 [1]) (fun _ => 0) none 10).result = .ok ∧
    (sec_download_file (fun _ => .status 404 [1]) (fun _ => 0) none 10).file = none ∧
    downloadDocsLoop (fun _ => 0) 10
        ((fun _ => HttpOutcome.status 200 [5]) :: (fun _ => HttpOutcome.status 404 [1]) :: [])
      = (.ok, 2) := by
  have h := C5_404_skip (fun _ => .status 404 [1]) (fun _ => 0) [1] 10 (by decide) rfl
  refine ⟨(h.1 none).1, (h.1 none).2, ?_⟩
  have h2 := h.2 [fun _ => HttpOutcome.status 200 [5]] [] rfl
  have h3 : (downloadDocsLoop (fun _ => 0) 10
      ([fun _ => HttpOutcome.status 200 [5]] ++ [])).2 = 1 := rfl
  rw [h3] at h2
  exact h2

/-! ## Deduplication and ordering lemmas -/

theorem dedupByAcc_not_mem_seen {seen : List String} {l : List FilingRef} {r : FilingRef}
    (h : r ∈ dedupByAcc seen l) : r.accession_no ∉ seen := by
  induction l generalizing seen with
  | nil => simp [dedupByAcc] at h
  | cons x xs ih =>
    unfold dedupByAcc at h
    split at h
    · exact ih h
    · rename_i hx
      rcases List.mem_cons.mp h with rfl | h2
      · exact hx
      · have h3 := ih h2
        intro hc
        exact h3 (List.mem_cons_of_mem _ hc)

theorem dedupByAcc_subset {seen : List String} {l : List FilingRef} {r : FilingRef}
    (h : r ∈ dedupByAcc seen l) : r ∈ l := by
  induction l generalizing seen with
  | nil => simp [dedupByAcc] at h
  | cons x xs ih =>
    unfold dedupByAcc at h
    split at h
    · exact List.mem_cons_of_mem _ (ih h)
    · rcases List.mem_cons.mp h with rfl | h2
      · exact List.mem_cons_self _ _
      · exact List.mem_cons_of_mem _ (ih h2)

theorem dedupByAcc_find {seen : List String} {l : List FilingRef} {r : FilingRef}
    (h : r ∈ dedupByAcc seen l) :
    l.find? (fun x => x.accession_no == r.accession_no) = some r := by
  induction l generalizing seen with
  | nil => simp [dedupByAcc] at h
  | cons x xs ih =>
    unfold dedupByAcc at h
    split at h
    · rename_i hx
      have hne : (x.accession_no == r.accession_no) = false := by
        have hnot := dedupByAcc_not_mem_seen h
        simp only [beq_eq_false_iff_ne, ne_eq]
        intro he
        rw [he] at hx
        exact hnot hx
      rw [List.find?_cons, hne]
      exact ih h
    · rename_i hx
      rcases List.mem_cons.mp h with rfl | h2
      · rw [List.find?_cons, beq_self_eq_true]
      · have hnot := dedupByAcc_not_mem_seen h2
        have hne : (x.accession_no == r.accession_no) = false := by
          simp only [beq_eq_false_iff_ne, ne_eq]
          intro he
          exact hnot (by rw [← he]; exact List.mem_cons_self _ _)
        rw [List.find?_cons, hne]
        exact ih h2

theorem dedupByAcc_complete {l : List FilingRef} {r : FilingRef} (hr : r ∈ l) :
    ∀ seen : List String, r.accession_no ∈ seen ∨
      ∃ s ∈ dedupByAcc seen l, s.accession_no = r.accession_no := by
  induction l with
  | nil => simp at hr
  | cons x xs ih =>
    intro seen
    rcases List.mem_cons.mp hr with rfl | h2
    · by_cases hx : r.accession_no ∈ seen
      · exact Or.inl hx
      · refine Or.inr ⟨r, ?_, rfl⟩
        unfold dedupByAcc
        rw [if_neg hx]
        exact List.mem_cons_self _ _
    · by_cases hx : x.accession_no ∈ seen
      · rcases ih h2 seen with h | ⟨s, hs, he⟩
        · exact Or.inl h
        · refine Or.inr ⟨s, ?_, he⟩
          unfold dedupByAcc
          rw [if_pos hx]
          exact hs
      · rcases ih h2 (x.accession_no :: seen) with h | ⟨s, hs, he⟩
        · rcases List.mem_cons.mp h with he | hin
          · refine Or.inr ⟨x, ?_, he.symm⟩
            unfold dedupByAcc
            rw [if_neg hx]
            exact List.mem_cons_self _ _
          · exact Or.inl hin
        · refine Or.inr ⟨s, ?_, he⟩
          unfold dedupByAcc
          rw [if_neg hx]
          exact List.mem_cons_of_mem _ hs

theorem dedupByAcc_pairwise (seen : List String) (l : List FilingRef) :
    List.Pairwise (fun a b => a.accession_no ≠ b.accession_no) (dedupByAcc seen l) := by
  induction l generalizing seen with
  | nil => simp [dedupByAcc]
  | cons x xs ih =>
    unfold dedupByAcc
    split
    · exact ih seen
    · refine List.Pairwise.cons ?_ (ih _)
      intro b hb
      have := dedupByAcc_not_mem_seen hb
      intro he
      exact this (by rw [← he]; exact List.mem_cons_self _ _)

theorem refLe_total (a b : FilingRef) : (refLe a b || refLe b a) = true := by
  unfold refLe
  rw [Bool.or_eq_true, decide_eq_true_iff, decide_eq_true_iff]
  rcases lt_trichotomy a.filing_date b.filing_date with h | h | h
  · exact Or.inl (Or.inl h)
  · rcases le_total a.accession_no b.accession_no with h2 | h2
    · exact Or.inl (Or.inr ⟨h, h2⟩)
    · exact Or.inr (Or.inr ⟨h.symm, h2⟩)
  · exact Or.inr (Or.inl h)

theorem refLe_trans (a b c : FilingRef) (hab : refLe a b = true) (hbc : refLe b c = true) :
    refLe a c = true := by
  unfold refLe at *
  rw [decide_eq_true_iff] at hab hbc ⊢
  rcases hab with h1 | ⟨h1, h1a⟩
  · rcases hbc with h2 | ⟨h2, _⟩
    · exact Or.inl (lt_trans h1 h2)
    · exact Or.inl (h2 ▸ h1)
  · rcases hbc with h2 | ⟨h2, h2a⟩
    · exact Or.inl (h1 ▸ h2)
    · exact Or.inr ⟨h1.trans h2, le_trans h1a h2a⟩

theorem sortRefs_perm (l : List FilingRef) : (sortRefs l).Perm l :=
  List.mergeSort_perm l refLe

theorem sortRefs_sorted (l : List FilingRef) : List.Sorted refLeP (sortRefs l) := by
  have h := @List.sorted_mergeSort FilingRef refLe refLe_trans refLe_total l
  exact h.imp (fun hab => decide_eq_true_iff.mp hab)

/-- The dedup-then-sort pipeline shared by the three discovery strategies
establishes the discovery invariant over any built list. -/
theorem dedupSort_discoveryOk (l : List FilingRef) :
    discoveryOk l (sortRefs (dedupByAcc [] l)) := by
  refine ⟨?_, ?_, ?_, sortRefs_sorted _⟩
  · exact (dedupByAcc_pairwise [] l).perm (sortRefs_perm _).symm (fun h => Ne.symm h)
  · intro r hr
    exact dedupByAcc_find ((sortRefs_perm _).mem_iff.mp hr)
  · intro r hr
    rcases dedupByAcc_complete hr [] with h | ⟨s, hs, he⟩
    · simp at h
    · exact ⟨s, (sortRefs_perm _).mem_iff.mpr hs, he⟩

/-! ## C7: discovery invariant -/

/-- C7: each discovery strategy (filter_8k_filings,
collect_8k_targets_for_cik, collect_8k_from_master_index) returns, for
every input, a list in which every accession number of the built row
sequence appears exactly once, the kept reference being the
first-encountered one, sorted non-decreasing by
(filing_date, accession_no). -/
theorem C7_discovery_invariant :
    (∀ cik10 includeAmendments filings,
      discoveryOk (filter8kBuild cik10 includeAmendments filings)
        (filter_8k_filings cik10 filings includeAmendments)) ∧
    (∀ server cik10 includeAmendments pageSize startDate fuel raw reqs,
      collectRaw server cik10 includeAmendments pageSize startDate fuel
          = some (raw, reqs) →
      collect_8k_targets_for_cik server cik10 includeAmendments pageSize startDate fuel
          = some ⟨sortRefs (dedupByAcc [] raw), reqs⟩ ∧
        discoveryOk raw (sortRefs (dedupByAcc [] raw))) ∧
    (∀ fetch cikFilter startYear startDate includeAmendments endYear endQ out,
      collect_8k_from_master_index fetch cikFilter startYear startDate
          includeAmendments endYear endQ = some out →
      ∃ startDt,
        out = sortRefs (dedupByAcc []
          (masterRaw fetch cikFilter startYear startDt includeAmendments endYear endQ)) ∧
        discoveryOk
          (masterRaw fetch cikFilter startYear startDt includeAmendments endYear endQ)
          out) := by
  refine ⟨?_, ?_, ?_⟩
  · intro cik10 inc filings
    exact dedupSort_discoveryOk (filter8kBuild cik10 inc filings)
  · intro server cik10 inc ps sdate fuel raw reqs h
    constructor
    · unfold collect_8k_targets_for_cik
      rw [h]
    · exact dedupSort_discoveryOk raw
  · intro fetch cf sy sdate inc ey eq out h
    unfold collect_8k_from_master_index at h
    cases sdate with
    | none =>
      have h2 : some (sortRefs (dedupByAcc []
          (masterRaw fetch cf sy none inc ey eq))) = some out := h
      refine ⟨none, (Option.some.inj h2).symm, ?_⟩
      rw [← Option.some.inj h2]
      exact dedupSort_discoveryOk _
    | some s =>
      have h2 : (match _parse_date_yyyy_mm_dd s with
        | none => none
        | some sd => some (sortRefs (dedupByAcc []
            (masterRaw fetch cf sy (some sd) inc ey eq)))) = some out := h
      cases hp : _parse_date_yyyy_mm_dd s with
      | none => rw [hp] at h2; exact absurd h2 (by simp)
      | some sd =>
        rw [hp] at h2
        refine ⟨some sd, (Option.some.inj h2).symm, ?_⟩
        rw [← Option.some.inj h2]
        exact dedupSort_discoveryOk _

/-- Witness for C7 at a concrete single-page listing. -/
theorem C7_witness :
    collect_8k_targets_for_cik c7server "0000320193" false 2 none 3
      = some ⟨sortRefs (dedupByAcc [] c7raw), [("8-K", 0)]⟩ :=
  (C7_discovery_invariant.2.1 c7server "0000320193" false 2 none 3 c7raw
    [("8-K", 0)] (by decide)).1

/-! ## Pagination walker lemmas -/

theorem processRow_skip (cik ft : String) (sd : Nat) (init : List FilingRef × Option Nat)
    (r : ListingRow) (hp : _parse_date_yyyy_mm_dd r.filing_date = none) :
    processRow cik ft (some sd) init r = init := by
  unfold processRow
  rw [hp]

theorem processRow_snd_some (cik ft : String) (sd : Nat)
    (init : List FilingRef × Option Nat) (r : ListingRow) (fd : Nat)
    (hp : _parse_date_yyyy_mm_dd r.filing_date = some fd) :
    ∃ o, (processRow cik ft (some sd) init r).2 = some o := by
  unfold processRow
  rw [hp]
  cases hinit : init.2 with
  | none => by_cases hlt : fd < sd <;> simp [hinit, hlt]
  | some o => by_cases hlt : fd < sd <;> simp [hinit, hlt]

theorem processRow_snd_keep (cik ft : String) (sd : Nat)
    (init : List FilingRef × Option Nat) (r : ListingRow) (o : Nat)
    (h2 : init.2 = some o) :
    ∃ o2, (processRow cik ft (some sd) init r).2 = some o2 := by
  cases hp : _parse_date_yyyy_mm_dd r.filing_date with
  | none => rw [processRow_skip cik ft sd init r hp]; exact ⟨o, h2⟩
  | some fd => exact processRow_snd_some cik ft sd init r fd hp

theorem processRow_snd_lt (cik ft : String) (sd : Nat)
    (init : List FilingRef × Option Nat) (r : ListingRow)
    (hinv : ∀ x, init.2 = some x → x < sd)
    (hrow : ∀ fd, _parse_date_yyyy_mm_dd r.filing_date = some fd → fd < sd) :
    ∀ x, (processRow cik ft (some sd) init r).2 = some x → x < sd := by
  intro x hx
  cases hp : _parse_date_yyyy_mm_dd r.filing_date with
  | none => rw [processRow_skip cik ft sd init r hp] at hx; exact hinv x hx
  | some fd =>
    have hfd : fd < sd := hrow fd hp
    unfold processRow at hx
    rw [hp] at hx
    cases hinit : init.2 with
    | none =>
      rw [hinit] at hx
      by_cases hlt : fd < sd <;> simp [hlt] at hx <;> omega
    | some o =>
      have ho : o < sd := hinv o hinit
      rw [hinit] at hx
      by_cases hlt : fd < o <;> by_cases hlt2 : fd < sd <;>
        simp [hlt, hlt2] at hx <;> omega

theorem foldl_snd_keep (cik ft : String) (sd : Nat) :
    ∀ (rows : List ListingRow) (init : List FilingRef × Option Nat) (o : Nat),
      init.2 = some o →
      ∃ o2, (rows.foldl (processRow cik ft (some sd)) init).2 = some o2 := by
  intro rows
  induction rows with
  | nil => intro init o h; exact ⟨o, h⟩
  | cons r rs ih =>
    intro init o h
    rw [List.foldl_cons]
    obtain ⟨o2, h2⟩ := processRow_snd_keep cik ft sd init r o h
    exact ih _ o2 h2

theorem foldl_snd_of_mem (cik ft : String) (sd : Nat) :
    ∀ (rows : List ListingRow) (init : List FilingRef × Option Nat),
      (∃ r ∈ rows, ∃ fd, _parse_date_yyyy_mm_dd r.filing_date = some fd) →
      ∃ o2, (rows.foldl (processRow cik ft (some sd)) init).2 = some o2 := by
  intro rows
  induction rows with
  | nil =>
    intro init h
    obtain ⟨r, hr, _⟩ := h
    exact absurd hr (by simp)
  | cons r rs ih =>
    intro init h
    rw [List.foldl_cons]
    obtain ⟨r2, hr2, fd, hfd⟩ := h
    rcases List.mem_cons.mp hr2 with rfl | hmem
    · obtain ⟨o, ho⟩ := processRow_snd_some cik ft sd init r2 fd hfd
      exact foldl_snd_keep cik ft sd rs _ o ho
    · exact ih _ ⟨r2, hmem, fd, hfd⟩

theorem foldl_snd_lt (cik ft : String) (sd : Nat) :
    ∀ (rows : List ListingRow)
      (hall : ∀ r ∈ rows, ∀ fd, _parse_date_yyyy_mm_dd r.filing_date = some fd → fd < sd)
      (init : List FilingRef × Option Nat)
      (hinv : ∀ x, init.2 = some x → x < sd),
      ∀ x, (rows.foldl (processRow cik ft (some sd)) init).2 = some x → x < sd := by
  intro rows
  induction rows with
  | nil => intro _ init hinv x hx; exact hinv x hx
  | cons r rs ih =>
    intro hall init hinv x hx
    rw [List.foldl_cons] at hx
    refine ih (fun r2 h2 => hall r2 (List.mem_cons_of_mem _ h2)) _ ?_ x hx
    exact processRow_snd_lt cik ft sd init r hinv
      (fun fd hfd => hall r (List.mem_cons_self _ _) fd hfd)

theorem allRowsOlder_of_all (sd : Nat) :
    ∀ rows : List ListingRow,
      (∀ r ∈ rows, ∃ fd, _parse_date_yyyy_mm_dd r.filing_date = some fd ∧ fd < sd) →
      allRowsOlder sd rows = some true := by
  intro rows
  induction rows with
  | nil => intro _; rfl
  | cons r rs ih =>
    intro h
    obtain ⟨fd, hfd, hlt⟩ := h r (List.mem_cons_self _ _)
    unfold allRowsOlder
    simp only [hfd, if_pos hlt]
    exact ih (fun r2 h2 => h r2 (List.mem_cons_of_mem _ h2))

theorem allRowsOlder_true (sd : Nat) :
    ∀ rows : List ListingRow, allRowsOlder sd rows = some true →
      ∀ r ∈ rows, ∃ fd, _parse_date_yyyy_mm_dd r.filing_date = some fd ∧ fd < sd := by
  intro rows
  induction rows with
  | nil => intro _ r hr; exact absurd hr (by simp)
  | cons r rs ih =>
    intro h r2 hr2
    unfold allRowsOlder at h
    cases hp : _parse_date_yyyy_mm_dd r.filing_date with
    | none => rw [hp] at h; exact absurd h (by simp)
    | some fd =>
      rw [hp] at h
      by_cases hlt : fd < sd
      · simp only [if_pos hlt] at h
        rcases List.mem_cons.mp hr2 with rfl | hmem
        · exact ⟨fd, hp, hlt⟩
        · exact ih h r2 hmem
      · simp only [if_neg hlt] at h
        exact absurd h (by simp)

theorem collectPages_stop (server : String → Nat → List ListingRow)
    (cik ft : String) (ps sd f start o : Nat)
    (hne : server ft start ≠ [])
    (ho : ((server ft start).foldl (processRow cik ft (some sd)) ([], none)).2 = some o)
    (holt : o < sd)
    (hall : allRowsOlder sd (server ft start) = some true) :
    collectPages server cik ft ps (some sd) (f + 1) start
      = some (((server ft start).foldl (processRow cik ft (some sd)) ([], none)).1,
          [start]) := by
  simp only [collectPages, if_neg hne, ho, if_pos holt, hall]

theorem collectPages_reqs_head (server : String → Nat → List ListingRow)
    (cik ft : String) (ps : Nat) (sdt : Option Nat) :
    ∀ (fuel start : Nat) (refs : List FilingRef) (reqs : List Nat),
      collectPages server cik ft ps sdt fuel start = some (refs, reqs) →
      ∃ rest, reqs = start :: rest := by
  intro fuel
  cases fuel with
  | zero =>
    intro start refs reqs h
    exact absurd h (by simp [collectPages])
  | succ f =>
    intro start refs reqs h
    simp only [collectPages] at h
    by_cases hrow : server ft start = []
    · rw [if_pos hrow] at h
      simp only [Option.some.injEq, Prod.mk.injEq] at h
      exact ⟨[], h.2.symm⟩
    · rw [if_neg hrow] at h
      repeat' split at h
      all_goals
        first
        | exact Option.noConfusion h
        | (simp only [Option.some.injEq, Prod.mk.injEq] at h; exact ⟨_, h.2.symm⟩)

theorem collectPages_next (server : String → Nat → List ListingRow)
    (cik ft : String) (ps sd f start : Nat)
    (hne : server ft start ≠ [])
    (hlen : (server ft start).length = ps)
    (hex : ∃ r ∈ server ft start, ∃ fd,
      _parse_date_yyyy_mm_dd r.filing_date = some fd ∧ sd ≤ fd) :
    ∀ refs reqs, collectPages server cik ft ps (some sd) (f + 1) start
        = some (refs, reqs) →
      ∃ rest, reqs = start :: (start + ps) :: rest := by
  intro refs reqs h
  simp only [collectPages, if_neg hne] at h
  repeat' split at h
  all_goals try exact Option.noConfusion h
  all_goals try omega
  -- remaining leaves: the early stop (impossible: some row is on/after the
  -- floor) and the three paths that fall through to the next page
  rotate_left 1
  · rename_i hall2
    obtain ⟨r, hr, fd, hfd, hge⟩ := hex
    obtain ⟨fd2, hfd2, hlt2⟩ := allRowsOlder_true sd _ hall2 r hr
    rw [hfd] at hfd2
    have h3 := Option.some.inj hfd2
    omega
  all_goals
    (rename_i hrec
     obtain ⟨rest2, hrest2⟩ := collectPages_reqs_head server cik ft ps (some sd)
       f (start + ps) _ _ hrec
     simp only [Option.some.injEq, Prod.mk.injEq] at h
     exact ⟨rest2, by rw [← h.2, hrest2]⟩)

theorem collectRaw_someDate (server : String → Nat → List ListingRow)
    (cik10 : String) (inc : Bool) (ps fuel : Nat) (s : String) (sd : Nat)
    (hsd : _parse_date_yyyy_mm_dd s = some sd) :
    collectRaw server cik10 inc ps (some s) fuel
      = collectForms server cik10 ps (some sd) fuel (wantedFormsC inc) := by
  show (match _parse_date_yyyy_mm_dd s with
    | none => none
    | some sd => collectForms server cik10 ps (some sd) fuel (wantedFormsC inc)) = _
  rw [hsd]

theorem collectForms_single (server : String → Nat → List ListingRow)
    (cik10 : String) (ps : Nat) (sdt : Option Nat) (fuel : Nat) (f : String) :
    collectForms server cik10 ps sdt fuel [f]
      = match collectPages server cik10 f ps sdt fuel 0 with
        | none => none
        | some (refs, reqs) => some (refs ++ [], reqs.map (fun st => (f, st)) ++ []) :=
  rfl

/-! ## C2: paginated-listing walker early stop -/

/-- C2 (amended): with a start-date floor configured, the walker stops
after a full page only when EVERY row on the page is older than the
floor; a full page on which merely some rows (e.g. the 37th of 100) are
older while at least one is on/after the floor leads to the next page
being requested.  Concretely, over a first page of exactly pageSize rows:
if every row parses to a date before the floor, the walker issues exactly
the one request for that page, and if some row is on/after the floor,
any result has the next start offset as its second request. -/
theorem C2_walker_early_stop (server : String → Nat → List ListingRow)
    (cik10 : String) (pageSize fuel : Nat) (s : String) (sd : Nat)
    (hsd : _parse_date_yyyy_mm_dd s = some sd) (hps : 0 < pageSize)
    (hfuel : 0 < fuel) :
    ((server "8-K" 0).length = pageSize →
      (∀ r ∈ server "8-K" 0, ∃ fd,
        _parse_date_yyyy_mm_dd r.filing_date = some fd ∧ fd < sd) →
      ∃ refs, collect_8k_targets_for_cik server cik10 false pageSize (some s) fuel
        = some ⟨refs, [("8-K", 0)]⟩) ∧
    ((server "8-K" 0).length = pageSize →
      (∃ r ∈ server "8-K" 0, ∃ fd,
        _parse_date_yyyy_mm_dd r.filing_date = some fd ∧ sd ≤ fd) →
      ∀ out, collect_8k_targets_for_cik server cik10 false pageSize (some s) fuel
          = some out →
      ∃ rest, out.reqs = ("8-K", 0) :: ("8-K", pageSize) :: rest) := by
  have hne0 : (server "8-K" 0).length = pageSize → server "8-K" 0 ≠ [] := by
    intro hlen h0
    rw [h0] at hlen
    simp at hlen
    omega
  constructor
  · intro hlen hall
    cases fuel with
    | zero => omega
    | succ f =>
      have hne := hne0 hlen
      obtain ⟨r0, hr0⟩ := List.exists_mem_of_ne_nil _ hne
      obtain ⟨fd0, hfd0, hlt0⟩ := hall r0 hr0
      obtain ⟨o, ho⟩ := foldl_snd_of_mem cik10 "8-K" sd (server "8-K" 0) ([], none)
        ⟨r0, hr0, fd0, hfd0⟩
      have holt : o < sd := by
        refine foldl_snd_lt cik10 "8-K" sd (server "8-K" 0) ?_ ([], none) (by simp) o ho
        intro r hr fd hfd
        obtain ⟨fd2, hfd2, hlt2⟩ := hall r hr
        rw [hfd] at hfd2
        have h3 := Option.some.inj hfd2
        omega
      have hstop := collectPages_stop server cik10 "8-K" pageSize sd f 0 o hne ho holt
        (allRowsOlder_of_all sd _ hall)
      refine ⟨sortRefs (dedupByAcc []
        ((((server "8-K" 0).foldl (processRow cik10 "8-K" (some sd)) ([], none)).1)
          ++ [])), ?_⟩
      unfold collect_8k_targets_for_cik
      rw [collectRaw_someDate server cik10 false pageSize (f + 1) s sd hsd,
        show wantedFormsC false = ["8-K"] from rfl, collectForms_single, hstop]
      rfl
  · intro hlen hex out hout
    cases fuel with
    | zero => omega
    | succ f =>
      have hne := hne0 hlen
      unfold collect_8k_targets_for_cik at hout
      rw [collectRaw_someDate server cik10 false pageSize (f + 1) s sd hsd,
        show wantedFormsC false = ["8-K"] from rfl, collectForms_single] at hout
      cases hcp : collectPages server cik10 "8-K" pageSize (some sd) (f + 1) 0 with
      | none => rw [hcp] at hout; exact Option.noConfusion hout
      | some pq =>
        obtain ⟨refs1, reqs1⟩ := pq
        rw [hcp] at hout
        have hout2 := Option.some.inj hout
        obtain ⟨rest, hrest⟩ := collectPages_next server cik10 "8-K" pageSize sd f 0
          hne hlen hex refs1 reqs1 hcp
        refine ⟨rest.map (fun st => ("8-K", st)), ?_⟩
        rw [← hout2]
        show reqs1.map (fun st => ("8-K", st)) ++ [] = _
        rw [hrest]
        simp


set_option maxRecDepth 100000 in
/-- C2 counterexample: a full first page of 100 rows, newest-first, whose
37th row is dated before the 2020-01-01 floor, does NOT stop the walker:
it requests the next page (start offset 100) as well, refuting the claim
that it stops after that page. -/
theorem C2_counterexample :
    c2page0.length = 100 ∧
    (c2page0.getD 36 c2rowNew).filing_date = "2019-12-02" ∧
    _parse_date_yyyy_mm_dd "2019-12-02" = some 20191202 ∧
    _parse_date_yyyy_mm_dd "2020-01-01" = some 20200101 ∧ 20191202 < 20200101 ∧
    List.Pairwise newerEq c2page0 ∧
    (collect_8k_targets_for_cik c2server "0000320193" false 100
        (some "2020-01-01") 5).map (fun o => o.reqs)
      = some [("8-K", 0), ("8-K", 100)] := by
  refine ⟨by decide, by decide, by decide, by decide, by decide, ?_, by decide⟩
  unfold c2page0
  rw [List.pairwise_append]
  have hnn : newerEq c2rowNew c2rowNew := by
    intro da db h1 h2
    have e1 := Option.some.inj ((by decide :
      _parse_date_yyyy_mm_dd c2rowNew.filing_date = some 20200203) ▸ h1)
    have e2 := Option.some.inj ((by decide :
      _parse_date_yyyy_mm_dd c2rowNew.filing_date = some 20200203) ▸ h2)
    omega
  have hoo : newerEq c2rowOld c2rowOld := by
    intro da db h1 h2
    have e1 := Option.some.inj ((by decide :
      _parse_date_yyyy_mm_dd c2rowOld.filing_date = some 20191202) ▸ h1)
    have e2 := Option.some.inj ((by decide :
      _parse_date_yyyy_mm_dd c2rowOld.filing_date = some 20191202) ▸ h2)
    omega
  have hno : newerEq c2rowNew c2rowOld := by
    intro da db h1 h2
    have e1 := Option.some.inj ((by decide :
      _parse_date_yyyy_mm_dd c2rowNew.filing_date = some 20200203) ▸ h1)
    have e2 := Option.some.inj ((by decide :
      _parse_date_yyyy_mm_dd c2rowOld.filing_date = some 20191202) ▸ h2)
    omega
  refine ⟨List.pairwise_replicate.mpr (Or.inr hnn),
    List.pairwise_replicate.mpr (Or.inr hoo), ?_⟩
  intro a ha b hb
  rw [List.eq_of_mem_replicate ha, List.eq_of_mem_replicate hb]
  exact hno

/-- Witness for C2 at a server whose whole first page is older than the
floor: exactly one page is requested. -/
theorem C2_witness :
    ∃ refs, collect_8k_targets_for_cik c2serverAllOld "0000320193" false 100
        (some "2020-01-01") 5 = some ⟨refs, [("8-K", 0)]⟩ := by
  refine (C2_walker_early_stop c2serverAllOld "0000320193" 100 5 "2020-01-01"
    20200101 (by decide) (by decide) (by decide)).1 (by decide) ?_
  intro r hr
  have h2 : r ∈ List.replicate 100 c2rowOld := hr
  rw [List.eq_of_mem_replicate h2]
  exact ⟨20191202, by decide, by decide⟩

/-! ## Manifest lemmas -/

theorem fromHex_toHex (n : Nat) (h : n < 16) :
    fromHexDigit (toHexDigit n) = some n := by
  interval_cases n <;> decide

theorem jsonString_escape : ∀ (s rest : List Char),
    jsonString (jsonEscape s ++ '"' :: rest) = some (s, rest) := by
  intro s
  induction s with
  | nil =>
    intro rest
    show jsonString ([] ++ '"' :: rest) = _
    rw [List.nil_append, jsonString.eq_def]
    simp
  | cons c cs ih =>
    intro rest
    show jsonString ((jsonEscapeChar c ++ jsonEscape cs) ++ '"' :: rest) = _
    rw [List.append_assoc]
    unfold jsonEscapeChar
    by_cases h1 : c = '\\'
    · subst h1
      rw [if_pos rfl, List.cons_append, List.cons_append, List.nil_append,
        jsonString.eq_def]
      simp [ih]
    rw [if_neg h1]
    by_cases h2 : c = '"'
    · subst h2
      rw [if_pos rfl, List.cons_append, List.cons_append, List.nil_append,
        jsonString.eq_def]
      simp [ih]
    rw [if_neg h2]
    by_cases h3 : c.toNat = 8
    · have hc : c = Char.ofNat 8 := by rw [← h3, Char.ofNat_toNat]
      rw [if_pos h3, hc, List.cons_append, List.cons_append, List.nil_append,
        jsonString.eq_def]
      simp [ih]
    rw [if_neg h3]
    by_cases h4 : c.toNat = 9
    · have hc : c = Char.ofNat 9 := by rw [← h4, Char.ofNat_toNat]
      rw [if_pos h4, hc, List.cons_append, List.cons_append, List.nil_append,
        jsonString.eq_def]
      simp [ih]
    rw [if_neg h4]
    by_cases h5 : c.toNat = 10
    · have hc : c = Char.ofNat 10 := by rw [← h5, Char.ofNat_toNat]
      rw [if_pos h5, hc, List.cons_append, List.cons_append, List.nil_append,
        jsonString.eq_def]
      simp [ih]
    rw [if_neg h5]
    by_cases h6 : c.toNat = 12
    · have hc : c = Char.ofNat 12 := by rw [← h6, Char.ofNat_toNat]
      rw [if_pos h6, hc, List.cons_append, List.cons_append, List.nil_append,
        jsonString.eq_def]
      simp [ih]
    rw [if_neg h6]
    by_cases h7 : c.toNat = 13
    · have hc : c = Char.ofNat 13 := by rw [← h7, Char.ofNat_toNat]
      rw [if_pos h7, hc, List.cons_append, List.cons_append, List.nil_append,
        jsonString.eq_def]
      simp [ih]
    rw [if_neg h7]
    by_cases h8 : c.toNat < 32
    · rw [if_pos h8]
      have ha : fromHexDigit (toHexDigit (c.toNat / 16)) = some (c.toNat / 16) :=
        fromHex_toHex _ (by omega)
      have hb : fromHexDigit (toHexDigit (c.toNat % 16)) = some (c.toNat % 16) :=
        fromHex_toHex _ (by omega)
      rw [List.cons_append, List.cons_append, List.cons_append, List.cons_append,
        List.cons_append, List.cons_append, List.nil_append, jsonString.eq_def]
      simp [ha, hb, ih, show fromHexDigit '0' = some 0 from rfl]
      rw [show c.toNat / 16 * 16 + c.toNat % 16 = c.toNat from by omega,
        Char.ofNat_toNat]
    rw [if_neg h8]
    rw [List.cons_append, List.nil_append, jsonString.eq_def]
    simp [h1, h2, h8, ih]

theorem jsonString_escape_sep (s : List Char) (c1 c2 : Char) (rest : List Char) :
    jsonString (jsonEscape s ++ (['"', c1, c2] ++ rest)) = some (s, c1 :: c2 :: rest) :=
  jsonString_escape s (c1 :: c2 :: rest)

theorem jsonString_escape_end (s : List Char) :
    jsonString (jsonEscape s ++ ['"', rbrace]) = some (s, [rbrace]) :=
  jsonString_escape s [rbrace]

theorem expectChars_append : ∀ (p l : List Char), expectChars p (p ++ l) = some l := by
  intro p
  induction p with
  | nil => intro l; rfl
  | cons c cs ih =>
    intro l
    show expectChars (c :: cs) (c :: (cs ++ l)) = some l
    unfold expectChars
    rw [if_pos rfl]
    exact ih l

theorem expectChars_cons (c : Char) (p l : List Char) :
    expectChars (c :: p) (c :: l) = expectChars p l := by
  rw [expectChars.eq_def]
  simp

theorem decodeLine_manifestLine (t : FilingRef) :
    decodeLine (manifestLine t)
      = some (t.cik10, t.accession_no, t.filing_date, t.form) := by
  unfold decodeLine manifestLine
  simp only [expectChars_append, expectChars_cons, jsonString_escape_sep,
    jsonString_escape_end, mk_toList]
  simp

theorem toHexDigit_not_boundary (n : Nat) (h : n < 16) :
    isLineBoundary (toHexDigit n) = false := by
  interval_cases n <;> decide

theorem jsonEscapeChar_no_boundary (a : Char)
    (ha : a.toNat ≠ 133 ∧ a.toNat ≠ 8232 ∧ a.toNat ≠ 8233) :
    ∀ c ∈ jsonEscapeChar a, isLineBoundary c = false := by
  obtain ⟨ha1, ha2, ha3⟩ := ha
  intro c hca
  unfold jsonEscapeChar at hca
  split at hca
  · simp only [List.mem_cons, List.not_mem_nil, or_false] at hca
    rcases hca with h | h <;> (subst h; decide)
  split at hca
  · simp only [List.mem_cons, List.not_mem_nil, or_false] at hca
    rcases hca with h | h <;> (subst h; decide)
  split at hca
  · simp only [List.mem_cons, List.not_mem_nil, or_false] at hca
    rcases hca with h | h <;> (subst h; decide)
  split at hca
  · simp only [List.mem_cons, List.not_mem_nil, or_false] at hca
    rcases hca with h | h <;> (subst h; decide)
  split at hca
  · simp only [List.mem_cons, List.not_mem_nil, or_false] at hca
    rcases hca with h | h <;> (subst h; decide)
  split at hca
  · simp only [List.mem_cons, List.not_mem_nil, or_false] at hca
    rcases hca with h | h <;> (subst h; decide)
  split at hca
  · simp only [List.mem_cons, List.not_mem_nil, or_false] at hca
    rcases hca with h | h <;> (subst h; decide)
  split at hca
  · simp only [List.mem_cons, List.not_mem_nil, or_false] at hca
    rcases hca with h | h | h | h | h | h
    · subst h; decide
    · subst h; decide
    · subst h; decide
    · subst h; decide
    · rw [h]; exact toHexDigit_not_boundary _ (by omega)
    · rw [h]; exact toHexDigit_not_boundary _ (by omega)
  · simp only [List.mem_singleton] at hca
    subst hca
    unfold isLineBoundary
    simp only [Bool.or_eq_false_iff, beq_eq_false_iff_ne, ne_eq]
    omega

theorem jsonEscape_no_boundary (l : List Char)
    (hl : ∀ a ∈ l, a.toNat ≠ 133 ∧ a.toNat ≠ 8232 ∧ a.toNat ≠ 8233) :
    ∀ c ∈ jsonEscape l, isLineBoundary c = false := by
  intro c hc
  obtain ⟨a, ha, hca⟩ := List.mem_flatMap.mp hc
  exact jsonEscapeChar_no_boundary a (hl a ha) c hca

theorem manifestLine_no_boundary (t : FilingRef)
    (hb : ∀ a ∈ (t.cik10.toList ++ t.accession_no.toList ++
        t.filing_date.toList ++ t.form.toList),
      a.toNat ≠ 133 ∧ a.toNat ≠ 8232 ∧ a.toNat ≠ 8233) :
    ∀ c ∈ manifestLine t, isLineBoundary c = false := by
  have hk1 : ∀ c2 ∈ jsonKey "cik10", isLineBoundary c2 = false := by decide
  have hk2 : ∀ c2 ∈ jsonKey "accession_no", isLineBoundary c2 = false := by decide
  have hk3 : ∀ c2 ∈ jsonKey "filing_date", isLineBoundary c2 = false := by decide
  have hk4 : ∀ c2 ∈ jsonKey "form", isLineBoundary c2 = false := by decide
  have h1 := jsonEscape_no_boundary t.cik10.toList (fun a ha2 => hb a
    (by simp only [List.mem_append]; exact Or.inl (Or.inl (Or.inl ha2))))
  have h2 := jsonEscape_no_boundary t.accession_no.toList (fun a ha2 => hb a
    (by simp only [List.mem_append]; exact Or.inl (Or.inl (Or.inr ha2))))
  have h3 := jsonEscape_no_boundary t.filing_date.toList (fun a ha2 => hb a
    (by simp only [List.mem_append]; exact Or.inl (Or.inr ha2)))
  have h4 := jsonEscape_no_boundary t.form.toList (fun a ha2 => hb a
    (by simp only [List.mem_append]; exact Or.inr ha2))
  intro c hc
  unfold manifestLine at hc
  simp only [List.mem_append, List.mem_cons, List.not_mem_nil, or_false] at hc
  casesm* _ ∨ _ <;>
    rename_i h <;>
    first
      | (subst h; decide)
      | exact hk1 c h
      | exact hk2 c h
      | exact hk3 c h
      | exact hk4 c h
      | exact h1 c h
      | exact h2 c h
      | exact h3 c h
      | exact h4 c h

theorem splitNl_line (l : List Char) (hl : ∀ c ∈ l, isLineBoundary c = false) :
    ∀ rest, splitNl (l ++ '\n' :: rest) = l :: splitNl rest := by
  induction l with
  | nil =>
    intro rest
    show splitNl ('\n' :: rest) = [] :: splitNl rest
    rw [splitNl.eq_def]
    simp only [if_neg (show ¬(('\n' : Char) = '\r') from by decide),
      show isLineBoundary '\n' = true from by decide, if_true]
  | cons c cs ih =>
    intro rest
    have hc := hl c (List.mem_cons_self _ _)
    have hcr : ¬(c = '\r') := by
      intro he
      rw [he] at hc
      exact absurd hc (by decide)
    show splitNl (c :: (cs ++ '\n' :: rest)) = (c :: cs) :: splitNl rest
    rw [splitNl.eq_def]
    simp only [if_neg hcr, hc, Bool.false_eq_true, if_false]
    rw [ih (fun c2 h2 => hl c2 (List.mem_cons_of_mem _ h2)) rest]

theorem splitNl_flat (ts : List FilingRef)
    (hb : ∀ t ∈ ts, ∀ c ∈ manifestLine t, isLineBoundary c = false) :
    splitNl (ts.flatMap (fun t => manifestLine t ++ ['\n']))
      = ts.map manifestLine := by
  induction ts with
  | nil => rfl
  | cons t ts ih =>
    rw [List.flatMap_cons, List.append_assoc,
      show (['\n'] : List Char) ++ (ts.flatMap fun t => manifestLine t ++ ['\n'])
        = '\n' :: (ts.flatMap fun t => manifestLine t ++ ['\n']) from rfl,
      splitNl_line _ (hb t (List.mem_cons_self _ _)) _,
      ih (fun x hx => hb x (List.mem_cons_of_mem _ hx))]
    simp

theorem pyStrip_sandwich (a : Char) (mid : List Char) (b : Char)
    (ha : pyIsSpace a = false) (hb : pyIsSpace b = false) :
    pyStrip (a :: (mid ++ [b])) = a :: (mid ++ [b]) := by
  unfold pyStrip
  rw [List.dropWhile_cons, if_neg (by rw [ha]; simp)]
  rw [show (a :: (mid ++ [b])).reverse = b :: (mid.reverse ++ [a]) from by simp]
  rw [List.dropWhile_cons, if_neg (by rw [hb]; simp)]
  simp

theorem manifestLine_shape (t : FilingRef) :
    ∃ mid, manifestLine t = lbrace :: (mid ++ [rbrace]) := by
  refine ⟨jsonKey "cik10" ++ (jsonEscape t.cik10.toList ++ (['"', ',', ' '] ++
    (jsonKey "accession_no" ++ (jsonEscape t.accession_no.toList ++ (['"', ',', ' '] ++
    (jsonKey "filing_date" ++ (jsonEscape t.filing_date.toList ++ (['"', ',', ' '] ++
    (jsonKey "form" ++ (jsonEscape t.form.toList ++ ['"'])))))))))), ?_⟩
  unfold manifestLine
  simp [List.append_assoc]

theorem pyStrip_manifestLine (t : FilingRef) :
    pyStrip (manifestLine t) = manifestLine t := by
  obtain ⟨mid, hm⟩ := manifestLine_shape t
  rw [hm, pyStrip_sandwich _ _ _ (by decide) (by decide)]

theorem manifestLine_ne_nil (t : FilingRef) : manifestLine t ≠ [] := by
  obtain ⟨mid, hm⟩ := manifestLine_shape t
  rw [hm]
  simp

theorem normalize_cik_canonical (c : String) (hlen : c.length = 10)
    (hd : ∀ ch ∈ c.toList, ch.isDigit = true) : normalize_cik c = some c := by
  have hfe : cikDigits c = c.toList := by
    unfold cikDigits
    exact List.filter_eq_self.mpr hd
  have hlen2 : c.toList.length = 10 := hlen
  unfold normalize_cik
  rw [hfe, if_neg (by intro h0; rw [h0] at hlen2; simp at hlen2),
    cikTail10_eq_self (by rw [hlen2]; omega), hlen2]
  simp [mk_toList]

theorem readManifestLines_write (ts : List FilingRef)
    (h : ∀ t ∈ ts, (t.cik10.length = 10 ∧ ∀ ch ∈ t.cik10.toList, ch.isDigit = true) ∧
      t.accession_no ≠ "" ∧ t.filing_date ≠ "" ∧ t.form ≠ "") :
    readManifestLines (ts.map manifestLine) = some (ts.map clearPrim) := by
  induction ts with
  | nil => rfl
  | cons t ts ih =>
    obtain ⟨⟨hl, hdg⟩, hacc, hdate, hform⟩ := h t (List.mem_cons_self _ _)
    rw [List.map_cons, readManifestLines.eq_def]
    simp only [pyStrip_manifestLine, decodeLine_manifestLine,
      normalize_cik_canonical t.cik10 hl hdg,
      ih (fun x hx => h x (List.mem_cons_of_mem _ hx))]
    rw [if_neg (manifestLine_ne_nil t)]
    simp only [if_neg hacc, if_neg hdate, if_neg hform]
    rfl

/-! ## C8: manifest round trip -/

/-- C8 (amended): for a list of FilingRefs with canonical 10-digit
company ids, non-empty accession number, filing date and form, and no
field value containing one of the raw line-boundary characters U+0085,
U+2028 or U+2029 (which json.dumps with ensure_ascii=False emits
unescaped and str.splitlines then treats as record separators), writing
the targets manifest and reading it back yields exactly the same set of
(cik10, accession_no, filing_date, form) tuples, every reconstructed
reference carrying an empty primary_document, regardless of the
primary_document values written. -/
theorem C8_manifest_roundtrip (ts : List FilingRef)
    (h : ∀ t ∈ ts, (t.cik10.length = 10 ∧ ∀ ch ∈ t.cik10.toList, ch.isDigit = true) ∧
      t.accession_no ≠ "" ∧ t.filing_date ≠ "" ∧ t.form ≠ "")
    (hb : ∀ t ∈ ts, ∀ a ∈ (t.cik10.toList ++ t.accession_no.toList ++
        t.filing_date.toList ++ t.form.toList),
      a.toNat ≠ 133 ∧ a.toNat ≠ 8232 ∧ a.toNat ≠ 8233) :
    read_targets_manifest (write_targets_manifest ts)
        = some (sortRefs (ts.map clearPrim)) ∧
    (∀ out, read_targets_manifest (write_targets_manifest ts) = some out →
      ((∀ q, q ∈ out.map refQuad ↔ q ∈ ts.map refQuad) ∧
        ∀ t2 ∈ out, t2.primary_document = "")) := by
  have hmain : read_targets_manifest (write_targets_manifest ts)
      = some (sortRefs (ts.map clearPrim)) := by
    unfold read_targets_manifest write_targets_manifest
    rw [toList_mk,
      splitNl_flat ts (fun t ht => manifestLine_no_boundary t (hb t ht)),
      readManifestLines_write ts h]
  refine ⟨hmain, ?_⟩
  intro out hout
  rw [hmain] at hout
  have hout2 : out = sortRefs (ts.map clearPrim) := (Option.some.inj hout).symm
  subst hout2
  constructor
  · intro q
    have hperm := (sortRefs_perm (ts.map clearPrim)).map refQuad
    rw [hperm.mem_iff, List.map_map,
      show (refQuad ∘ clearPrim) = refQuad from funext (fun x => rfl)]
  · intro t2 ht2
    have hmem := (sortRefs_perm _).mem_iff.mp ht2
    obtain ⟨x, _, hx⟩ := List.mem_map.mp hmem
    rw [← hx]
    rfl

set_option maxRecDepth 100000 in
/-- Counterexample to the unamended C8 reading: badRef has a canonical
10-digit company id and non-empty accession number, filing date and
form, yet writing a manifest for it and reading that manifest back
loses the record entirely, because the raw U+2028 in the form value
splits the written line into two fragments on readback, neither of
which parses as JSON, and unparsable lines are silently skipped. -/
theorem C8_counterexample :
    ((badRef.cik10.length = 10 ∧ ∀ ch ∈ badRef.cik10.toList, ch.isDigit = true) ∧
      badRef.accession_no ≠ "" ∧ badRef.filing_date ≠ "" ∧ badRef.form ≠ "") ∧
    read_targets_manifest (write_targets_manifest [badRef]) = some [] := by
  refine ⟨by decide, ?_⟩
  unfold read_targets_manifest
  rw [show readManifestLines (splitNl (write_targets_manifest [badRef]).toList)
    = some [] from by decide]
  simp [sortRefs]

/-- Witness for C8 at a concrete one-element target list. -/
theorem C8_witness :
    read_targets_manifest (write_targets_manifest [sampleRef1])
      = some (sortRefs ([sampleRef1].map clearPrim)) :=
  (C8_manifest_roundtrip [sampleRef1] (by decide) (by decide)).1
